import Mathlib

/-!
Verification development for the WeChatPro desktop automation tool
(`wechat_pro.py`).  Python strings are modelled as lists of characters,
Python floats as rationals, and every source of nondeterminism (the RNG,
clock readings, the mutated shared config, clipboard reads, the UI
automation driver) as an explicit oracle parameter, so that all
definitions are executable on concrete inputs.
-/

namespace WeChatPro

/-- Model of a Python `str`: a list of code points. -/
abbrev PyStr := List Char

/-- Python `int(x)` for a float/rational `x`: truncation toward zero. -/
def pyInt (q : ℚ) : ℤ := if 0 ≤ q then ⌊q⌋ else -⌊-q⌋

/-! ### `SemanticEngine` (text stealth, `humanize`) -/

/-- Source list `SemanticEngine.invisible_chars`: the zero-width characters U+200B, U+200C, U+200D, U+2060. -/
def invisible_chars : List Char := ['\u200B', '\u200C', '\u200D', '\u2060']

/-- The outcomes of the random draws made by `humanize`:
`lightNoise` is `random.choices(invisible_chars, k=random.randint(1, 2))`
(the `count_threshold < 5` branch); `preNoise`/`sufNoise` are the two
independent `random.choices(invisible_chars, k=random.randint(1, 3))`
draws of the `count_threshold >= 5` branch. -/
structure SemRand where
  lightNoise : List Char
  preNoise : List Char
  sufNoise : List Char
  deriving Repr, DecidableEq

/-- The support of the random draws: exactly the strings `random.choices`
composed with `random.randint` can produce. -/
def SemRand.Wf (r : SemRand) : Prop :=
  (1 ≤ r.lightNoise.length ∧ r.lightNoise.length ≤ 2 ∧
    ∀ c ∈ r.lightNoise, c ∈ invisible_chars) ∧
  (1 ≤ r.preNoise.length ∧ r.preNoise.length ≤ 3 ∧
    ∀ c ∈ r.preNoise, c ∈ invisible_chars) ∧
  (1 ≤ r.sufNoise.length ∧ r.sufNoise.length ≤ 3 ∧
    ∀ c ∈ r.sufNoise, c ∈ invisible_chars)

instance (r : SemRand) : Decidable r.Wf := by
  unfold SemRand.Wf; infer_instance

/-- Model of `SemanticEngine.humanize(base_content, count_threshold, current_idx, use_stealth)`.
`current_idx` is accepted but unused, exactly as in the source. -/
def humanize (rnd : SemRand) (base_content : PyStr) (count_threshold : ℤ)
    (current_idx : ℕ) (use_stealth : Bool) : PyStr :=
  if ¬use_stealth ∨ base_content = [] then base_content
  else if count_threshold ≤ 1 then base_content
  else if count_threshold < 5 then base_content ++ rnd.lightNoise
  else rnd.preNoise ++ base_content ++ rnd.sufNoise

/-- Remove the four zero-width characters from a string. -/
def stripInvisible (s : PyStr) : PyStr :=
  s.filter (fun c => !(invisible_chars.contains c))

/-! ### `ClipboardScope` -/

/-- Model of `ClipboardScope` as a context manager: `__enter__` reads the current
text clipboard (falling back to `""` when `pyperclip.paste` raises, which
is what `readOk = false` means) and `__exit__` attempts to write that
saved value back, for a normal exit and for an exceptional one alike —
but the restore write sits in its own `try/except: pass`, so when
`pyperclip.copy` raises on exit (`writeOk = false`) the exception is
swallowed and the clipboard keeps whatever the body last set.  The body
is an arbitrary clipboard transformer that also reports whether it
raised. -/
def withClipboardScope (readOk writeOk : Bool) (body : PyStr → PyStr × Bool)
    (clip : PyStr) : PyStr × Bool :=
  let original_data := if readOk then clip else []
  let res := body clip
  (if writeOk then original_data else res.1, res.2)

/-! ### `AutomationWorker` stop flag -/

/-- State holding the `_is_running` flag guarded by `self._mutex`. -/
structure WorkerFlag where
  isRunningFlag : Bool
  deriving Repr, DecidableEq

/-- Model of `AutomationWorker.stop`. -/
def WorkerFlag.stop (_w : WorkerFlag) : WorkerFlag := ⟨false⟩

/-- Model of `AutomationWorker.is_running`. -/
def WorkerFlag.is_running (w : WorkerFlag) : Bool := w.isRunningFlag

/-! ### `_smart_sleep` arithmetic -/

/-- The base duration computed by `_smart_sleep`: substitute the current
configured interval when the request matches it within `0.001`, then
clamp up to the physical floor `0.05`. -/
def smartBase (current_interval duration : ℚ) : ℚ :=
  let base_duration :=
    if |duration - current_interval| < 1/1000 then current_interval else duration
  if base_duration < 1/20 then 1/20 else base_duration

/-- The actual duration slept by `_smart_sleep`: with human simulation on
and a base above `0.1`, the base is jittered by `u ∈ uniform(0.8, 1.3)`
and `v ∈ uniform(0.01, 0.05)`. -/
def smartActual (human : Bool) (base u v : ℚ) : ℚ :=
  if human ∧ base > 1/10 then base * u + v else base

/-! ### `TaskConfig` -/

/-- One entry of the target list `target_list`: `(name, custom_msg, custom_files)`. -/
structure Target where
  name : PyStr
  msg : PyStr
  files : List PyStr
  deriving Repr, DecidableEq

/-- The mutable part of `TaskConfig`, read and written under `self._mutex`:
`count_per_person`, `interval`, `global_msg`, `global_files`. -/
structure MCfg where
  count_per_person : ℕ
  interval : ℚ
  global_msg : PyStr
  global_files : List PyStr
  deriving Repr, DecidableEq

/-- The fields of `TaskConfig` never mutated after construction. -/
structure SCfg where
  target_list : List Target
  target_timestamp : ℚ
  enable_stealth_mode : Bool
  enable_human_simulation : Bool
  auto_minimize_done : Bool
  deriving Repr, DecidableEq

/-- Model of `AutomationWorker.update_runtime_params(new_count, new_interval)`. -/
def update_runtime_params (cfg : MCfg) (new_count : ℕ) (new_interval : ℚ) : MCfg :=
  { cfg with count_per_person := new_count, interval := new_interval }

/-! ### `os.path.splitext` and the extension dispatch of the image engine -/

/-- Model of Python `s.rfind(c)`: index of the last occurrence, `-1` when absent. -/
def rfind (s : PyStr) (c : Char) : ℤ :=
  match s.reverse.findIdx? (· = c) with
  | none => -1
  | some j => (s.length : ℤ) - 1 - (j : ℤ)

/-- Extension part `os.path.splitext(p)[1]` on Windows (`sep = '\\'`, `altsep = '/'`):
the extension starts at the last dot that lies after the last path
separator, provided some earlier character of the final component is not
a dot (leading dots belong to the root). -/
def splitextExt (p : PyStr) : PyStr :=
  let sepIndex := max (rfind p '\\') (rfind p '/')
  let dotIndex := rfind p '.'
  if dotIndex > sepIndex then
    if (List.range p.length).any
        (fun j => sepIndex < (j : ℤ) ∧ (j : ℤ) < dotIndex ∧ p.getD j '.' ≠ '.') then
      p.drop dotIndex.toNat
    else []
  else []

/-- Lower-cased extension `os.path.splitext(path)[1].lower()` (extensions are ASCII). -/
def extLower (p : PyStr) : PyStr := (splitextExt p).map Char.toLower

/-- Source list `video_exts = ['.mp4', '.mov', '.avi', '.mkv', '.wmv']`. -/
def video_exts : List PyStr :=
  [".mp4".data, ".mov".data, ".avi".data, ".mkv".data, ".wmv".data]

/-- The extensions routed to `_inject_binary_noise`. -/
def noise_exts : List PyStr := [".gif".data, ".webp".data]

/-- The extensions routed to `_perturb_pixels`. -/
def photo_exts : List PyStr :=
  [".jpg".data, ".jpeg".data, ".png".data, ".bmp".data]

/-! ### `ImageStealthEngine` -/

/-- A PIL image mode. -/
inductive PMode where
  | RGB
  | RGBA
  | other (name : String)
  deriving Repr, DecidableEq

/-- An in-memory image: a mode and a row-major grid of pixels, each pixel
a list of channel values. -/
structure Image where
  mode : PMode
  rows : List (List (List ℕ))
  deriving Repr, DecidableEq

/-- Pixel read `img.getpixel((0, 0))`. -/
def Image.getpx00 (img : Image) : List ℕ := (img.rows.headD []).headD []

/-- Pixel write `img.putpixel((0, 0), p)`. -/
def Image.putpx00 (img : Image) (p : List ℕ) : Image :=
  { img with
    rows := match img.rows with
      | [] => []
      | r :: rs => (match r with | [] => [] | _ :: cs => p :: cs) :: rs }

/-- The channel update of `_perturb_pixels`:
`pixel[0] = min(255, pixel[0] + 1) if pixel[0] < 255 else 254`. -/
def perturbChannel (p : List ℕ) : List ℕ :=
  match p with
  | [] => []
  | c0 :: cs => (if c0 < 255 then min 255 (c0 + 1) else 254) :: cs

/-- Model of `ImageStealthEngine._perturb_pixels` on the in-memory image: convert
to RGB when the mode is neither RGB nor RGBA (the conversion itself is
done by PIL, supplied as the oracle `convert`), then rewrite pixel
`(0, 0)`.  The `img.save(dst, quality=95, optimize=True)` call is the
identity on this pixel-grid model. -/
def perturb_pixels (convert : Image → Image) (img : Image) : Image :=
  let img := if img.mode = .RGB ∨ img.mode = .RGBA then img else convert img
  img.putpx00 (perturbChannel img.getpx00)

/-- A source file handed to the image engine: its path, its raw bytes and
(when it is a decodable image) its decoded pixel grid. -/
structure SrcFile where
  path : PyStr
  bytes : List ℕ
  img : Image
  deriving Repr, DecidableEq

/-- What `_process_single_file` leaves at the destination path: either a
re-encoded image or a plain byte blob. -/
inductive Saved where
  | image (img : Image)
  | blob (bytes : List ℕ)
  deriving Repr, DecidableEq

/-- Model of `ImageStealthEngine._inject_binary_noise`: copy the file and append
`os.urandom(random.randint(4, 8))` (the oracle `noise`). -/
def inject_binary_noise (noise : List ℕ) (bytes : List ℕ) : Saved :=
  .blob (bytes ++ noise)

/-- Model of `ImageStealthEngine._process_single_file`, dispatching on the
lower-cased extension.  `openOk` tells whether the PIL pipeline inside
`_perturb_pixels` raises; on an exception that helper falls back to
`_inject_binary_noise`. -/
def process_single_file (convert : Image → Image) (noise : List ℕ)
    (openOk : Bool) (f : SrcFile) : Saved :=
  let ext := extLower f.path
  if ext ∈ noise_exts then inject_binary_noise noise f.bytes
  else if ext ∈ photo_exts then
    if openOk then .image (perturb_pixels convert f.img)
    else inject_binary_noise noise f.bytes
  else .blob f.bytes

/-- Model of `ImageStealthEngine.process_batch`.  `proc i p` is the outcome of the
`_process_single_file` call for position `i` (`.ok q` returns the cache
path `q`, `.error ()` is the exception swallowed by the `except` arm,
which keeps the original path). -/
def process_batch (proc : ℕ → PyStr → Except Unit PyStr) :
    ℕ → List PyStr → List PyStr
  | _, [] => []
  | i, p :: rest =>
    (if extLower p ∈ video_exts then p
     else match proc i p with
       | .ok q => q
       | .error _ => p) :: process_batch proc (i + 1) rest


/-! ### Helper lemmas -/

theorem stripInvisible_append (a b : PyStr) :
    stripInvisible (a ++ b) = stripInvisible a ++ stripInvisible b := by
  simp [stripInvisible, List.filter_append]

theorem stripInvisible_eq_nil {ns : List Char}
    (h : ∀ c ∈ ns, c ∈ invisible_chars) : stripInvisible ns = [] := by
  induction ns with
  | nil => rfl
  | cons c cs ih =>
    have hc := h c (by simp)
    have hmem : invisible_chars.contains c = true := by
      simp only [invisible_chars, List.mem_cons, List.not_mem_nil, or_false] at hc
      rcases hc with h1 | h1 | h1 | h1 <;> subst h1 <;> decide
    simp only [stripInvisible, List.filter_cons, hmem, Bool.not_true, if_neg]
    exact ih fun d hd => h d (List.mem_cons_of_mem _ hd)

/-! ### Claim C4: text stealth perturbation -/

/-- Claim C4 (amended): with stealth enabled and non-empty content,
`humanize` returns the content unchanged for `count_threshold <= 1`,
appends 1–2 zero-width characters for `2 <= count_threshold < 5`, and
wraps the content in 1–3 zero-width characters on each side for
`count_threshold >= 5`; with stealth disabled or empty content it returns
the content unchanged.  Removing the four zero-width characters from the
result yields the base content with those same characters removed (hence
exactly the base content whenever it contains none of them). -/
theorem claim_C4 (r : SemRand) (base : PyStr) (thr : ℤ) (idx : ℕ) (st : Bool)
    (hwf : r.Wf) :
    ((st = false ∨ base = []) → humanize r base thr idx st = base) ∧
    (st = true → base ≠ [] → thr ≤ 1 → humanize r base thr idx st = base) ∧
    (st = true → base ≠ [] → 2 ≤ thr → thr < 5 →
      humanize r base thr idx st = base ++ r.lightNoise ∧
      1 ≤ r.lightNoise.length ∧ r.lightNoise.length ≤ 2 ∧
      ∀ c ∈ r.lightNoise, c ∈ invisible_chars) ∧
    (st = true → base ≠ [] → 5 ≤ thr →
      humanize r base thr idx st = r.preNoise ++ base ++ r.sufNoise ∧
      1 ≤ r.preNoise.length ∧ r.preNoise.length ≤ 3 ∧
      (∀ c ∈ r.preNoise, c ∈ invisible_chars) ∧
      1 ≤ r.sufNoise.length ∧ r.sufNoise.length ≤ 3 ∧
      (∀ c ∈ r.sufNoise, c ∈ invisible_chars)) ∧
    stripInvisible (humanize r base thr idx st) = stripInvisible base := by
  obtain ⟨⟨hl1, hl2, hl3⟩, ⟨hp1, hp2, hp3⟩, ⟨hs1, hs2, hs3⟩⟩ := hwf
  refine ⟨?_, ?_, ?_, ?_, ?_⟩
  · rintro (h | h) <;> simp [humanize, h]
  · intro h1 h2 h3
    simp [humanize, h1, h2, h3]
  · intro h1 h2 h3 h4
    refine ⟨?_, hl1, hl2, hl3⟩
    have : ¬thr ≤ 1 := by omega
    simp [humanize, h1, h2, this, h4]
  · intro h1 h2 h3
    refine ⟨?_, hp1, hp2, hp3, hs1, hs2, hs3⟩
    have h4 : ¬thr ≤ 1 := by omega
    have h5 : ¬thr < 5 := by omega
    simp [humanize, h1, h2, h4, h5]
  · unfold humanize
    split
    · rfl
    · split
      · rfl
      · split
        · rw [stripInvisible_append, stripInvisible_eq_nil hl3, List.append_nil]
        · rw [stripInvisible_append, stripInvisible_append,
            stripInvisible_eq_nil hp3, stripInvisible_eq_nil hs3,
            List.append_nil, List.nil_append]

/-- Claim C4 counterexample: the claim as stated says that removing the
four invisible characters from the result yields exactly the base
content for every non-empty base content; this fails when the base
content itself contains one of the invisible characters. -/
theorem claim_C4_cex :
    (⟨['\u200B'], ['\u200B'], ['\u200B']⟩ : SemRand).Wf ∧
    (['\u200B'] : PyStr) ≠ [] ∧
    stripInvisible (humanize ⟨['\u200B'], ['\u200B'], ['\u200B']⟩ ['\u200B'] 2 0 true)
      ≠ ['\u200B'] := by
  refine ⟨by decide, by decide, by decide⟩

/-- Witness for claim C4 at a concrete well-formed random draw. -/
theorem claim_C4_witness :
    (⟨['\u200B'], ['\u200C'], ['\u2060']⟩ : SemRand).Wf ∧
    stripInvisible (humanize ⟨['\u200B'], ['\u200C'], ['\u2060']⟩ ['h', 'i'] 3 0 true)
      = stripInvisible ['h', 'i'] :=
  ⟨by decide, (claim_C4 ⟨['\u200B'], ['\u200C'], ['\u2060']⟩ ['h', 'i'] 3 0 true
    (by decide)).2.2.2.2⟩

/-! ### Claim C5: image stealth perturbation -/

/-- Sample gif input used in the claim C5 counterexample. -/
def gifSample : SrcFile :=
  { path := "funny.gif".data, bytes := [71, 73, 70, 56],
    img := ⟨.RGB, [[[10, 20, 30]]]⟩ }

/-- Claim C5 (amended): for every file whose lower-cased extension is
`.jpg`/`.jpeg`/`.png`/`.bmp`, whose image opens successfully and is in
RGB or RGBA mode, the image saved by the stealth engine differs from the
input only at pixel `(0, 0)`, whose first channel is incremented by 1
(or set to 254 when it is already 255); all other pixels, the remaining
channels of pixel `(0, 0)`, the mode and the dimensions are unchanged.
Files with extension `.gif`/`.webp` are instead given 4–8 random
trailing bytes with their pixels untouched, and other extensions are
copied unchanged. -/
theorem claim_C5 (convert : Image → Image) (noise : List ℕ) (f : SrcFile)
    (hext : extLower f.path ∈ photo_exts)
    (hmode : f.img.mode = .RGB ∨ f.img.mode = .RGBA) :
    ∃ out, process_single_file convert noise true f = .image out ∧
      out.mode = f.img.mode ∧
      out.rows.length = f.img.rows.length ∧
      (∀ i, i ≠ 0 → out.rows.getD i [] = f.img.rows.getD i []) ∧
      (∀ j, j ≠ 0 →
        (out.rows.getD 0 []).getD j [] = (f.img.rows.getD 0 []).getD j []) ∧
      (out.rows.getD 0 []).length = (f.img.rows.getD 0 []).length ∧
      ((out.rows.getD 0 []).getD 0 [] =
        match (f.img.rows.getD 0 []).getD 0 [] with
        | [] => []
        | c0 :: cs => (if c0 < 255 then c0 + 1 else 254) :: cs) := by
  have hnoise : extLower f.path ∉ noise_exts := by
    simp only [photo_exts, List.mem_cons, List.not_mem_nil, or_false] at hext
    rcases hext with h | h | h | h <;> rw [h] <;> decide
  have hphoto : extLower f.path ∈ photo_exts := hext
  have hconv : (if f.img.mode = .RGB ∨ f.img.mode = .RGBA then f.img
      else convert f.img) = f.img := if_pos hmode
  refine ⟨perturb_pixels convert f.img, ?_, ?_, ?_, ?_, ?_, ?_, ?_⟩
  · simp [process_single_file, hnoise, hphoto]
  · simp [perturb_pixels, hconv, Image.putpx00]
  · simp only [perturb_pixels, hconv, Image.putpx00]
    rcases f.img.rows with _ | ⟨r, rs⟩ <;> simp
  · intro i hi
    simp only [perturb_pixels, hconv, Image.putpx00]
    rcases f.img.rows with _ | ⟨r, rs⟩
    · rfl
    · rcases i with _ | i
      · omega
      · simp
  · intro j hj
    simp only [perturb_pixels, hconv, Image.putpx00]
    rcases f.img.rows with _ | ⟨r, rs⟩
    · rfl
    · rcases r with _ | ⟨p, cs⟩
      · rfl
      · rcases j with _ | j
        · omega
        · simp
  · simp only [perturb_pixels, hconv, Image.putpx00]
    rcases f.img.rows with _ | ⟨r, rs⟩
    · rfl
    · rcases r with _ | ⟨p, cs⟩ <;> simp
  · simp only [perturb_pixels, hconv, Image.putpx00, Image.getpx00]
    rcases f.img.rows with _ | ⟨r, rs⟩
    · rfl
    · rcases r with _ | ⟨p, cs⟩
      · rfl
      · rcases p with _ | ⟨c0, ch⟩
        · simp [perturbChannel]
        · simp only [perturbChannel, List.headD, List.getD]
          by_cases h255 : c0 < 255
          · have : min 255 (c0 + 1) = c0 + 1 := by omega
            simp [h255, this]
          · simp [h255]

/-- Claim C5 counterexample: a `.gif` file routed through the stealth
engine is not single-pixel mutated; the saved file is the original byte
blob with random bytes appended, and pixel `(0, 0)` is never touched. -/
theorem claim_C5_cex :
    process_single_file id [7, 7, 7, 7] true gifSample
      = .blob (gifSample.bytes ++ [7, 7, 7, 7]) ∧
    gifSample.bytes ++ [7, 7, 7, 7] ≠ gifSample.bytes := by
  refine ⟨by decide, by decide⟩

/-- Witness for claim C5 at a concrete jpg file. -/
theorem claim_C5_witness :
    extLower "photo.JPG".data ∈ photo_exts ∧
    ∃ out, process_single_file id [] true
        ⟨"photo.JPG".data, [1, 2], ⟨.RGB, [[[255, 9], [3, 4]], [[5, 6], [7, 8]]]⟩⟩
        = .image out ∧
      out.mode = PMode.RGB ∧
      (out.rows.getD 0 []).getD 0 [] = [254, 9] :=
  have h := claim_C5 id []
    ⟨"photo.JPG".data, [1, 2], ⟨.RGB, [[[255, 9], [3, 4]], [[5, 6], [7, 8]]]⟩⟩
    (by decide) (Or.inl rfl)
  ⟨by decide, by
    obtain ⟨out, h1, h2, _, _, _, _, h7⟩ := h
    exact ⟨out, h1, h2, by rw [h7]; rfl⟩⟩

/-! ### Claim C8: implicit rate-limit floor of `_smart_sleep` -/

/-- Claim C8: the base sleep duration of `_smart_sleep` substitutes the
configured interval when the request matches it within `0.001`, is then
clamped up to `0.05`, and is therefore always at least `0.05`; the
actual slept duration (after the optional human-simulation jitter with
`u ∈ [0.8, 1.3]`, `v ∈ [0.01, 0.05]`) is also at least `0.05`, so no two
consecutive sends are scheduled closer than `0.05` seconds apart however
small the requested interval. -/
theorem claim_C8 (human : Bool) (current_interval duration u v : ℚ)
    (hu1 : 4/5 ≤ u) (hu2 : u ≤ 13/10) (hv1 : 1/100 ≤ v) (hv2 : v ≤ 1/20) :
    (|duration - current_interval| < 1/1000 →
      smartBase current_interval duration = max current_interval (1/20)) ∧
    1/20 ≤ smartBase current_interval duration ∧
    1/20 ≤ smartActual human (smartBase current_interval duration) u v := by
  have hbase : 1/20 ≤ smartBase current_interval duration := by
    unfold smartBase
    split <;> dsimp only <;> split <;> linarith
  refine ⟨?_, hbase, ?_⟩
  · intro h
    unfold smartBase
    rw [if_pos h]
    rcases le_or_lt (1/20 : ℚ) current_interval with hc | hc
    · rw [if_neg (by linarith), max_eq_left hc]
    · rw [if_pos hc, max_eq_right (le_of_lt hc)]
  · unfold smartActual
    split
    · rename_i hh
      have hb : (1/10 : ℚ) < smartBase current_interval duration := hh.2
      nlinarith [hb, hu1, hv1]
    · exact hbase

/-- Witness for claim C8 at a concrete tiny request. -/
theorem claim_C8_witness :
    ((4:ℚ)/5 ≤ 1 ∧ (1:ℚ) ≤ 13/10 ∧ (1:ℚ)/100 ≤ 1/50 ∧ (1:ℚ)/50 ≤ 1/20) ∧
    1/20 ≤ smartBase (1/1000) (1/1000) ∧
    1/20 ≤ smartActual true (smartBase (1/1000) (1/1000)) 1 (1/50) :=
  ⟨by norm_num,
   (claim_C8 true (1/1000) (1/1000) 1 (1/50) (by norm_num) (by norm_num)
     (by norm_num) (by norm_num)).2.1,
   (claim_C8 true (1/1000) (1/1000) 1 (1/50) (by norm_num) (by norm_num)
     (by norm_num) (by norm_num)).2.2⟩

/-! ### Claim C10: batch-shape preservation of `process_batch` -/

/-- Characterization of one output slot of `process_batch`. -/
theorem process_batch_getD (proc : ℕ → PyStr → Except Unit PyStr) :
    ∀ (paths : List PyStr) (start i : ℕ), i < paths.length →
      (process_batch proc start paths).getD i [] =
        (if extLower (paths.getD i []) ∈ video_exts then paths.getD i []
         else match proc (start + i) (paths.getD i []) with
           | .ok q => q
           | .error _ => paths.getD i []) := by
  intro paths
  induction paths with
  | nil => intro start i h; simp at h
  | cons p rest ih =>
    intro start i h
    rcases i with _ | i
    · simp [process_batch]
    · have h' : i < rest.length := by simpa using h
      have := ih (start + 1) i h'
      simp only [process_batch, List.getD_cons_succ]
      rw [this]
      have harg : start + 1 + i = start + (i + 1) := by omega
      rw [harg]

/-- Length preservation of `process_batch`. -/
theorem process_batch_length (proc : ℕ → PyStr → Except Unit PyStr) :
    ∀ (start : ℕ) (paths : List PyStr),
      (process_batch proc start paths).length = paths.length := by
  intro start paths
  induction paths generalizing start with
  | nil => rfl
  | cons p rest ih => simp [process_batch, ih]

/-- Claim C10: `process_batch` returns a list of the same length with
positions corresponding one-to-one to the input; a path with a video
extension is returned unchanged at its position, and a position whose
individual processing raises keeps the original input path. -/
theorem claim_C10 (proc : ℕ → PyStr → Except Unit PyStr) (paths : List PyStr) :
    (process_batch proc 0 paths).length = paths.length ∧
    ∀ i, i < paths.length →
      (extLower (paths.getD i []) ∈ video_exts →
        (process_batch proc 0 paths).getD i [] = paths.getD i []) ∧
      (extLower (paths.getD i []) ∉ video_exts →
        proc i (paths.getD i []) = .error () →
        (process_batch proc 0 paths).getD i [] = paths.getD i []) ∧
      (extLower (paths.getD i []) ∉ video_exts →
        ∀ q, proc i (paths.getD i []) = .ok q →
          (process_batch proc 0 paths).getD i [] = q) := by
  refine ⟨process_batch_length proc 0 paths, ?_⟩
  intro i h
  have hc := process_batch_getD proc paths 0 i h
  rw [Nat.zero_add] at hc
  refine ⟨?_, ?_, ?_⟩
  · intro hv; rw [hc, if_pos hv]
  · intro hv he; rw [hc, if_neg hv, he]
  · intro hv q hq; rw [hc, if_neg hv, hq]

/-- Witness for claim C10 at a concrete mixed batch. -/
theorem claim_C10_witness :
    (process_batch (fun _ _ => .error ()) 0 ["a.mp4".data, "b.jpg".data]).length = 2 ∧
    (process_batch (fun _ _ => .error ()) 0 ["a.mp4".data, "b.jpg".data]).getD 0 []
      = "a.mp4".data ∧
    (process_batch (fun _ _ => .error ()) 0 ["a.mp4".data, "b.jpg".data]).getD 1 []
      = "b.jpg".data := by
  have h := claim_C10 (fun _ _ => .error ()) ["a.mp4".data, "b.jpg".data]
  refine ⟨h.1, ?_, ?_⟩
  · exact (h.2 0 (by decide)).1 (by decide)
  · exact ((h.2 1 (by decide)).2.1 (by decide)) rfl

/-! ### Trace semantics of `AutomationWorker.run`

The worker thread is embedded as a fuel-bounded interpreter that emits a
trace of observable events.  Every interaction with the outside world is
an indexed oracle in `Env`: `runningAt k` is the value of the
mutex-guarded `_is_running` flag at the k-th `is_running()` check,
`timeAt`/`perfAt` are successive `time.time()`/`time.perf_counter()`
readings, `cfgAt r` is the state of the mutable config at the r-th
mutex-guarded read (live mutation by the UI thread shows up as `cfgAt`
changing with `r`), `randQ`/`randN`/`semRand` are the RNG draws,
`procBatch` the outcome of `ImageStealthEngine.process_batch`,
`clipReadOk`/`clipWriteOk` whether the c-th clipboard-scope operation
(`pyperclip.paste` on entry, the except-pass-guarded `pyperclip.copy`
restore on exit) succeeds in `ClipboardScope`, `searchOk` whether
`search_contact`'s driver calls raise, and `connectOk` whether the
WeChat window is found. -/

/-- Observable events of the worker thread. -/
inductive Ev where
  | check (b : Bool)
  | emitCountdown (n : ℤ)
  | sleep (d : ℚ)
  | sleepReq (d : ℚ)
  | readParams (count : ℕ) (interval : ℚ)
  | connectTry
  | activate
  | keys (s : String)
  | copyText (s : PyStr)
  | focusInput
  | clearEvent
  | emitFiles (fs : List PyStr)
  | waitEvent (d : ℚ)
  | emitProgress (done total : ℕ)
  | log
  | scopeEnter
  | scopeExit
  | minimize
  | errorEmit
  | finished
  | pasteEnter
  deriving Repr, DecidableEq

/-- Interpreter state: oracle cursors, the text clipboard, and the
worker's own counters (`ops_done`, `last_ui_update_time`,
`msgs_since_break`, `next_break_threshold`). -/
structure St where
  k : ℕ
  t : ℕ
  p : ℕ
  r : ℕ
  u : ℕ
  b : ℕ
  c : ℕ
  clip : PyStr
  ops_done : ℕ
  last_ui : ℚ
  msgs_since_break : ℕ
  next_break_threshold : ℕ
  deriving Repr, DecidableEq

/-- Oracles for every external interaction of the worker thread. -/
structure Env where
  runningAt : ℕ → Bool
  timeAt : ℕ → ℚ
  perfAt : ℕ → ℚ
  cfgAt : ℕ → MCfg
  randQ : ℕ → ℚ
  randN : ℕ → ℕ
  semRand : ℕ → SemRand
  procBatch : ℕ → List PyStr → List PyStr
  clipReadOk : ℕ → Bool
  clipWriteOk : ℕ → Bool
  searchOk : PyStr → Bool
  connectOk : Bool

/-- A stop flag history is monotone: `stop()` only ever clears the flag
and nothing sets it again, so once a check reads `false` every later
check reads `false`. -/
def Env.Mono (env : Env) : Prop :=
  ∀ i j : ℕ, i ≤ j → env.runningAt i = false → env.runningAt j = false

/-- Model of `WeChatDriver.send_paste_and_enter`, an atomic driver call
(Ctrl+V then Enter); in human mode it draws two `random.uniform` pauses
internally. -/
def send_paste_and_enter (human : Bool) (st : St) : List Ev × St :=
  if human then ([.pasteEnter], { st with u := st.u + 2 }) else ([.pasteEnter], st)

/-- Busy-wait loop of `_smart_sleep`: while `perf_counter() < end_time`,
bail out at the next `is_running()` check once the stop flag is down,
otherwise nap in sub-10ms slices. -/
def sleepWaitLoop (env : Env) (end_time : ℚ) : ℕ → St → List Ev × St
  | 0, st => ([], st)
  | fuel + 1, st =>
    if env.perfAt st.p < end_time then
      let st1 : St := { st with p := st.p + 1 }
      if env.runningAt st1.k then
        let st2 : St := { st1 with k := st1.k + 1 }
        let remaining := end_time - env.perfAt st2.p
        let st3 : St := { st2 with p := st2.p + 1 }
        let micro : List Ev :=
          if remaining < 1/100 then
            (if remaining > 1/1000 then [.sleep (remaining / 2)] else [])
          else [.sleep (1/200)]
        let res := sleepWaitLoop env end_time fuel st3
        (.check true :: (micro ++ res.1), res.2)
      else ([.check false], { st1 with k := st1.k + 1 })
    else ([], { st with p := st.p + 1 })

/-- Model of `AutomationWorker._smart_sleep(duration)`: read the current
interval under the mutex, compute the base (`smartBase`) and jittered
(`smartActual`) durations, then busy-wait until `end_time`.  The head
event `sleepReq duration` records the requested duration of this call. -/
def smart_sleep (env : Env) (human : Bool) (duration : ℚ) (fuel : ℕ) (st : St) :
    List Ev × St :=
  let current_interval := (env.cfgAt st.r).interval
  let st1 : St := { st with r := st.r + 1 }
  let base := smartBase current_interval duration
  let actual := smartActual human base (env.randQ st1.u) (env.randQ (st1.u + 1))
  let st2 : St :=
    { st1 with u := if human ∧ base > 1/10 then st1.u + 2 else st1.u }
  let end_time := env.perfAt st2.p + actual
  let st3 : St := { st2 with p := st2.p + 1 }
  let res := sleepWaitLoop env end_time fuel st3
  (.sleepReq duration :: res.1, res.2)

/-- Model of `AutomationWorker._check_human_break`: in human mode, after
`next_break_threshold` messages take a random 3–8 s break via
`_smart_sleep` and redraw the threshold from `randint(15, 30)`. -/
def check_human_break (env : Env) (human : Bool) (fuel : ℕ) (st : St) :
    List Ev × St :=
  if human then
    let msb := st.msgs_since_break + 1
    if msb ≥ st.next_break_threshold then
      let break_time := env.randQ st.u
      let st1 : St := { st with u := st.u + 1, msgs_since_break := msb }
      let res := smart_sleep env human break_time fuel st1
      let st2 := res.2
      let nbt : ℕ := env.randN st2.u
      (.log :: res.1,
        { st2 with
          msgs_since_break := 0,
          next_break_threshold := nbt,
          u := st2.u + 1 })
    else ([], { st with msgs_since_break := msb })
  else ([], st)

/-- Exit reasons of the countdown loop. -/
inductive CdExit where
  | stopped
  | reached
  | fuelOut
  deriving Repr, DecidableEq

/-- The countdown loop of `run`: while running, read `time.time()`; once
`target_timestamp - now <= 0` emit a final `0` and break to connect;
otherwise emit the truncated remaining seconds and sleep 0.5 s (0.1 s
when under 2 s remain). -/
def countdownLoop (env : Env) (ts : ℚ) : ℕ → St → List Ev × St × CdExit
  | 0, st => ([], st, .fuelOut)
  | fuel + 1, st =>
    if env.runningAt st.k then
      let st1 : St := { st with k := st.k + 1 }
      let now := env.timeAt st1.t
      let st2 : St := { st1 with t := st1.t + 1 }
      let remaining := ts - now
      if remaining ≤ 0 then ([.check true, .emitCountdown 0], st2, .reached)
      else
        let res := countdownLoop env ts fuel st2
        (.check true :: .emitCountdown (pyInt remaining) ::
          .sleep (if remaining < 2 then 1/10 else 1/2) :: res.1, res.2.1, res.2.2)
    else ([.check false], { st with k := st.k + 1 }, .stopped)

/-- Text block of one message dispatch (`if active_msg:`): humanize,
copy to the clipboard, paste-and-enter, optional human break, and the
0.05 s gap sleep when attachments follow. -/
def textBlock (env : Env) (human stealth : Bool) (active_msg : PyStr)
    (active_files : List PyStr) (current_limit sent fuel : ℕ) (st : St) :
    List Ev × St :=
  let final_msg := humanize (env.semRand st.u) active_msg (current_limit : ℤ)
    sent stealth
  let st1 : St := { st with u := st.u + 1, clip := final_msg }
  let resP := send_paste_and_enter human st1
  let resB := check_human_break env human fuel resP.2
  let resG :=
    if active_files ≠ [] then smart_sleep env human (1/20) fuel resB.2
    else ([], resB.2)
  (.copyText final_msg :: (resP.1 ++ resB.1 ++ resG.1), resG.2)

/-- Attachment block of one message dispatch (`if active_files:`):
optional stealth batch, clear the clipboard event, emit the file list to
the UI thread, wait up to 5 s for `set_clipboard_files` to signal, then
paste-and-enter and the optional human break. -/
def filesBlock (env : Env) (human stealth : Bool)
    (active_files : List PyStr) (fuel : ℕ) (st : St) : List Ev × St :=
  let final_files :=
    if stealth then env.procBatch st.b active_files else active_files
  let st5 : St := { st with b := if stealth then st.b + 1 else st.b }
  let resP2 := send_paste_and_enter human st5
  let resB2 := check_human_break env human fuel resP2.2
  (.clearEvent :: .emitFiles final_files :: .waitEvent 5 :: (resP2.1 ++ resB2.1),
    resB2.2)

/-- One message dispatch inside the per-message loop: the text block
followed by the attachment block, each skipped when its content is
empty. -/
def sendContent (env : Env) (human stealth : Bool) (active_msg : PyStr)
    (active_files : List PyStr) (current_limit : ℕ) (sent : ℕ) (fuel : ℕ)
    (st : St) : List Ev × St :=
  let resM :=
    if active_msg ≠ [] then
      textBlock env human stealth active_msg active_files current_limit sent
        fuel st
    else ([], st)
  let resF :=
    if active_files ≠ [] then filesBlock env human stealth active_files fuel resM.2
    else ([], resM.2)
  (resM.1 ++ resF.1, resF.2)

/-- The per-message `while True` loop of `run`: check the stop flag,
re-read `count_per_person` and `interval` under the mutex, break when
the limit is reached, read the active content (custom per-target data or
the live global config), dispatch it, update the counters and progress,
and sleep the just-read interval before the next message. -/
def msgLoop (env : Env) (human stealth : Bool) (total_targets : ℕ)
    (is_custom : Bool) (custom_msg : PyStr) (custom_files : List PyStr) :
    ℕ → ℕ → St → List Ev × St
  | 0, _sent, st => ([], st)
  | fuel + 1, sent, st =>
    if env.runningAt st.k then
      let st1 : St := { st with k := st.k + 1 }
      let cfg := env.cfgAt st1.r
      let current_limit := cfg.count_per_person
      let current_interval_val := cfg.interval
      let st2 : St := { st1 with r := st1.r + 1 }
      if sent ≥ current_limit then
        ([.check true, .readParams current_limit current_interval_val], st2)
      else
        let active_msg :=
          if is_custom then custom_msg else (env.cfgAt st2.r).global_msg
        let active_files :=
          if is_custom then custom_files else (env.cfgAt st2.r).global_files
        let st3 : St := { st2 with r := if is_custom then st2.r else st2.r + 1 }
        let resC := sendContent env human stealth active_msg active_files
          current_limit sent fuel st3
        let sent' := sent + 1
        let st5 : St := { resC.2 with ops_done := resC.2.ops_done + 1 }
        let est_total := total_targets * current_limit
        let now_time := env.timeAt st5.t
        let st6 : St := { st5 with t := st5.t + 1 }
        let is_last := st6.ops_done ≥ est_total ∨ sent' ≥ current_limit
        let emitPr := is_last ∨ now_time - st6.last_ui > 1/5
        let resPr : List Ev × St :=
          (if emitPr then [.emitProgress st6.ops_done est_total] else [],
            { st6 with last_ui := if emitPr then now_time else st6.last_ui })
        let resS :=
          if sent' < current_limit then
            smart_sleep env human current_interval_val fuel resPr.2
          else ([], resPr.2)
        let res := msgLoop env human stealth total_targets is_custom custom_msg
          custom_files fuel sent' resS.2
        (.check true :: .readParams current_limit current_interval_val ::
          (resC.1 ++ resPr.1 ++ resS.1 ++ res.1), res.2)
    else ([.check false], { st with k := st.k + 1 })

/-- Name of the pseudo-target that suppresses the contact search. -/
def curWindowName : PyStr := "当前窗口".data

/-- Key label for Ctrl+F. -/
def keyCtrlF : String := "{Ctrl}f"

/-- Key label for Ctrl+V. -/
def keyCtrlV : String := "{Ctrl}v"

/-- Key label for Enter. -/
def keyEnter : String := "{Enter}"

/-- Event sequence of a successful `WeChatDriver.search_contact`. -/
def searchEvs (name : PyStr) : List Ev :=
  [.activate, .sleep (1/10), .keys keyCtrlF, .sleep (1/5), .copyText name,
    .keys keyCtrlV, .sleep (1/2), .keys keyEnter]

/-- Model of `WeChatDriver.search_contact(name)`: activate the window,
Ctrl+F, copy the name to the clipboard, Ctrl+V, Enter, returning `True`;
on a driver exception (`searchOk name = false`) it returns `False`.  The
exception is modelled at the first keystroke (after `activate`, which
swallows its own exceptions). -/
def search_contact (env : Env) (name : PyStr) (st : St) : List Ev × St × Bool :=
  if env.searchOk name then
    (searchEvs name, { st with clip := name }, true)
  else ([.activate, .sleep (1/10)], st, false)

/-- Processing of one target of the per-target `for` loop body: read the
initial content under the mutex, skip the target when there is nothing
to send, otherwise open a `ClipboardScope`, search for the contact when
needed (a failed search books the skipped operations and leaves the
scope), focus the input box and run the per-message loop; the scope exit
attempts to restore the saved clipboard (an exception in the
except-pass-guarded restore write leaves the clipboard as the body last
set it) and the inter-target 0.5 s sleep follows (skipped by the
`continue` of a failed search). -/
def runTarget (env : Env) (sc : SCfg) (total_targets : ℕ) (tgt : Target)
    (fuel : ℕ) (st : St) : List Ev × St :=
  let cfg0 := env.cfgAt st.r
  let initial_msg := cfg0.global_msg
  let initial_files := cfg0.global_files
  let current_count_setting := cfg0.count_per_person
  let st1 : St := { st with r := st.r + 1 }
  let total_ops_est := total_targets * current_count_setting
  let is_custom := tgt.msg ≠ [] ∨ tgt.files ≠ []
  if ¬is_custom ∧ initial_msg = [] ∧ initial_files = [] then
    let st2 : St := { st1 with ops_done := st1.ops_done + current_count_setting }
    ([.log, .emitProgress st2.ops_done total_ops_est], st2)
  else
    let original_data := if env.clipReadOk st1.c then st1.clip else []
    let st2 : St := { st1 with c := st1.c + 1 }
    let need_search := ¬(total_targets = 1 ∧ (tgt.name = [] ∨ tgt.name = curWindowName))
    if need_search then
      let resSearch := search_contact env tgt.name st2
      if resSearch.2.2 then
        let resW := smart_sleep env sc.enable_human_simulation (1/2) fuel
          resSearch.2.1
        let resMsg := msgLoop env sc.enable_human_simulation
          sc.enable_stealth_mode total_targets is_custom tgt.msg tgt.files fuel 0
          resW.2
        let st6 : St := { resMsg.2 with
          clip := if env.clipWriteOk resMsg.2.c then original_data
            else resMsg.2.clip,
          c := resMsg.2.c + 1 }
        let resG := smart_sleep env sc.enable_human_simulation (1/2) fuel st6
        (.scopeEnter :: .log ::
          (resSearch.1 ++ resW.1 ++ [.focusInput] ++ resMsg.1 ++ [.scopeExit]
            ++ resG.1), resG.2)
      else
        let st3 := resSearch.2.1
        let st4 : St := { st3 with ops_done := st3.ops_done + current_count_setting }
        let st5 : St := { st4 with
          clip := if env.clipWriteOk st4.c then original_data else st4.clip,
          c := st4.c + 1 }
        (.scopeEnter :: .log ::
          (resSearch.1 ++ [.log, .emitProgress st4.ops_done total_ops_est,
            .scopeExit]), st5)
    else
      let resMsg := msgLoop env sc.enable_human_simulation
        sc.enable_stealth_mode total_targets is_custom tgt.msg tgt.files fuel 0 st2
      let st6 : St := { resMsg.2 with
        clip := if env.clipWriteOk resMsg.2.c then original_data
          else resMsg.2.clip,
        c := resMsg.2.c + 1 }
      let resG := smart_sleep env sc.enable_human_simulation (1/2) fuel st6
      (.scopeEnter :: .log ::
        ([.focusInput] ++ resMsg.1 ++ [.scopeExit] ++ resG.1), resG.2)

/-- The per-target `for` loop of `run`: check the stop flag before each
target and break once it is down. -/
def targetLoop (env : Env) (sc : SCfg) (total_targets : ℕ) :
    List Target → ℕ → St → List Ev × St
  | [], _fuel, st => ([], st)
  | tgt :: rest, fuel, st =>
    if env.runningAt st.k then
      let st1 : St := { st with k := st.k + 1 }
      let res1 := runTarget env sc total_targets tgt fuel st1
      let res := targetLoop env sc total_targets rest fuel res1.2
      (.check true :: (res1.1 ++ res.1), res.2)
    else ([.check false], { st with k := st.k + 1 })

/-- The ten 0.1 s cooldown naps before auto-minimizing, each guarded by
a stop check. -/
def coolLoop (env : Env) : ℕ → St → List Ev × St
  | 0, st => ([], st)
  | n + 1, st =>
    if env.runningAt st.k then
      let st1 : St := { st with k := st.k + 1 }
      let res := coolLoop env n st1
      (.check true :: .sleep (1/10) :: res.1, res.2)
    else ([.check false], { st with k := st.k + 1 })

/-- The auto-minimize epilogue of `run`: when enabled and still running,
cool down for up to 1 s and minimize the chat window if still running. -/
def autoMinimizePart (env : Env) (autoMin : Bool) (st : St) : List Ev × St :=
  if autoMin then
    if env.runningAt st.k then
      let st1 : St := { st with k := st.k + 1 }
      let resC := coolLoop env 10 st1
      if env.runningAt resC.2.k then
        (.check true :: .log :: (resC.1 ++ [.check true, .log, .minimize]),
          { resC.2 with k := resC.2.k + 1 })
      else
        (.check true :: .log :: (resC.1 ++ [.check false]),
          { resC.2 with k := resC.2.k + 1 })
    else ([.check false], { st with k := st.k + 1 })
  else ([], st)

/-- Main part of `run` after the countdown: connect to the chat window
(an exception emits the error signal), activate it, sleep 0.5 s, process
every target, run the auto-minimize epilogue and emit `finished`. -/
def runMain (env : Env) (sc : SCfg) (total_targets : ℕ) (fuel : ℕ) (st : St) :
    List Ev × St :=
  if env.connectOk then
    let resW := smart_sleep env sc.enable_human_simulation (1/2) fuel st
    let resT := targetLoop env sc total_targets sc.target_list fuel resW.2
    let resA := autoMinimizePart env sc.auto_minimize_done resT.2
    (.log :: .connectTry :: .activate ::
      (resW.1 ++ [.log] ++ resT.1 ++ resA.1 ++ [.finished]), resA.2)
  else ([.log, .connectTry, .errorEmit, .finished], st)

/-- Model of `AutomationWorker.run`: the mode log, the countdown loop
when a target timestamp is set (a stop during the countdown returns
straight to the `finally` block), then the main send phase. -/
def run (env : Env) (sc : SCfg) (fuel : ℕ) (st : St) : List Ev × St :=
  let total_targets := sc.target_list.length
  if sc.target_timestamp > 0 then
    let res := countdownLoop env sc.target_timestamp fuel st
    match res.2.2 with
    | .stopped => (.log :: .log :: (res.1 ++ [.finished]), res.2.1)
    | .fuelOut => (.log :: .log :: res.1, res.2.1)
    | .reached =>
      let main := runMain env sc total_targets fuel res.2.1
      (.log :: .log :: (res.1 ++ main.1), main.2)
  else
    let main := runMain env sc total_targets fuel st
    (.log :: main.1, main.2)

/-- Initial interpreter state: all oracle cursors at zero, the worker
counters set as in `AutomationWorker.__init__` (`nbt` is the initial
`random.randint(15, 30)` break threshold). -/
def initSt (clip : PyStr) (nbt : ℕ) : St :=
  { k := 0, t := 0, p := 0, r := 0, u := 0, b := 0, c := 0, clip := clip,
    ops_done := 0, last_ui := 0, msgs_since_break := 0,
    next_break_threshold := nbt }

/-! ### Trace analysis: pastes issued after an observed stop -/

/-- Test for a paste-and-enter event. -/
def isPasteEv : Ev → Bool
  | .pasteEnter => true
  | _ => false

/-- Test for an `is_running()` check that observed the cleared flag. -/
def isStopCheck : Ev → Bool
  | .check false => true
  | _ => false

/-- Number of paste-and-enter events in a trace. -/
def pasteCount (tr : List Ev) : ℕ := tr.countP isPasteEv

/-- Whether a trace contains an observed-stop check. -/
def sawStopB (tr : List Ev) : Bool := tr.any isStopCheck

/-- Number of paste-and-enter events occurring after the first
observed-stop check of a trace. -/
def pastesAfterStop : List Ev → ℕ
  | [] => 0
  | e :: t => if isStopCheck e then pasteCount t else pastesAfterStop t

/-- The values read by the `is_running()` checks of a trace, in order. -/
def checkVals (tr : List Ev) : List Bool :=
  tr.filterMap fun e => match e with | .check b => some b | _ => none

theorem pasteCount_append (a b : List Ev) :
    pasteCount (a ++ b) = pasteCount a + pasteCount b :=
  List.countP_append _ _ _

theorem pasteCount_cons (e : Ev) (t : List Ev) :
    pasteCount (e :: t) = pasteCount t + if isPasteEv e then 1 else 0 :=
  List.countP_cons _ _ _

theorem sawStopB_append (a b : List Ev) :
    sawStopB (a ++ b) = (sawStopB a || sawStopB b) :=
  List.any_append

theorem pastesAfterStop_append (a b : List Ev) :
    pastesAfterStop (a ++ b) =
      if sawStopB a then pastesAfterStop a + pasteCount b
      else pastesAfterStop b := by
  induction a with
  | nil => simp [sawStopB, pastesAfterStop]
  | cons e t ih =>
    by_cases he : isStopCheck e = true
    · have h1 : pastesAfterStop (e :: (t ++ b)) = pasteCount (t ++ b) := by
        simp [pastesAfterStop, he]
      have h2 : pastesAfterStop (e :: t) = pasteCount t := by
        simp [pastesAfterStop, he]
      have h3 : sawStopB (e :: t) = true := by simp [sawStopB, he]
      rw [List.cons_append, h1, h3, if_pos rfl, h2, pasteCount_append]
    · have hb : isStopCheck e = false := by
        revert he; cases isStopCheck e <;> simp
      have h1 : pastesAfterStop (e :: (t ++ b)) = pastesAfterStop (t ++ b) := by
        simp [pastesAfterStop, hb]
      have h2 : pastesAfterStop (e :: t) = pastesAfterStop t := by
        simp [pastesAfterStop, hb]
      have h3 : sawStopB (e :: t) = sawStopB t := by simp [sawStopB, hb]
      rw [List.cons_append, h1, ih, h3, h2]

theorem pastesAfterStop_cons_of_not (e : Ev) (t : List Ev)
    (he : isStopCheck e = false) :
    pastesAfterStop (e :: t) = pastesAfterStop t := by
  simp [pastesAfterStop, he]

theorem pastesAfterStop_le_pasteCount (tr : List Ev) :
    pastesAfterStop tr ≤ pasteCount tr := by
  induction tr with
  | nil => simp [pastesAfterStop, pasteCount]
  | cons e t ih =>
    by_cases he : isStopCheck e = true
    · have h1 : pastesAfterStop (e :: t) = pasteCount t := by
        simp [pastesAfterStop, he]
      rw [h1, pasteCount_cons]
      omega
    · have hb : isStopCheck e = false := by
        revert he; cases isStopCheck e <;> simp
      have h1 : pastesAfterStop (e :: t) = pastesAfterStop t := by
        simp [pastesAfterStop, hb]
      rw [h1, pasteCount_cons]
      omega

theorem checkVals_append (a b : List Ev) :
    checkVals (a ++ b) = checkVals a ++ checkVals b :=
  List.filterMap_append _ _ _

/-- A trace spans the checks with indices `[k₀, k₁)`: the values read by
its `is_running()` checks are exactly the flag history over that index
range. -/
def KSpan (env : Env) (k₀ k₁ : ℕ) (tr : List Ev) : Prop :=
  k₀ ≤ k₁ ∧ checkVals tr = (List.range' k₀ (k₁ - k₀)).map env.runningAt

theorem KSpan.comp {env : Env} {k₀ k₁ k₂ : ℕ} {a b : List Ev}
    (ha : KSpan env k₀ k₁ a) (hb : KSpan env k₁ k₂ b) :
    KSpan env k₀ k₂ (a ++ b) := by
  obtain ⟨h01, hcva⟩ := ha
  obtain ⟨h12, hcvb⟩ := hb
  refine ⟨le_trans h01 h12, ?_⟩
  rw [checkVals_append, hcva, hcvb, ← List.map_append]
  have : List.range' k₀ (k₁ - k₀) ++ List.range' (k₀ + (k₁ - k₀)) (k₂ - k₁)
      = List.range' k₀ ((k₂ - k₁) + (k₁ - k₀)) := List.range'_append_1 k₀ _ _
  have hk : k₀ + (k₁ - k₀) = k₁ := by omega
  have hn : (k₂ - k₁) + (k₁ - k₀) = k₂ - k₀ := by omega
  rw [hk] at this
  rw [this, hn]

theorem KSpan.ofNoChecks {env : Env} {k : ℕ} {tr : List Ev}
    (h : checkVals tr = []) : KSpan env k k tr := by
  refine ⟨le_refl k, ?_⟩
  simp [h]

theorem KSpan.single {env : Env} {k : ℕ} {b : Bool}
    (h : env.runningAt k = b) : KSpan env k (k + 1) [.check b] := by
  refine ⟨by omega, ?_⟩
  have : k + 1 - k = 1 := by omega
  simp [checkVals, this, List.range', h]

theorem KSpan.consSkip {env : Env} {k₀ k₁ : ℕ} {e : Ev} {tr : List Ev}
    (he : checkVals [e] = []) (h : KSpan env k₀ k₁ tr) :
    KSpan env k₀ k₁ (e :: tr) := by
  have : e :: tr = [e] ++ tr := rfl
  rw [this]
  exact KSpan.comp (KSpan.ofNoChecks he) h

/-- Once a trace that spans `[k₀, k₁)` contains an observed-stop check,
monotonicity pushes the cleared flag to every index from `k₁` on. -/
theorem KSpan.stop_flag {env : Env} {k₀ k₁ : ℕ} {tr : List Ev}
    (hm : env.Mono) (h : KSpan env k₀ k₁ tr) (hs : sawStopB tr = true) :
    env.runningAt k₁ = false := by
  obtain ⟨hle, hcv⟩ := h
  obtain ⟨e, he, hse⟩ := List.any_eq_true.mp hs
  have hchk : (false : Bool) ∈ checkVals tr := by
    cases e with
    | check b =>
      cases b with
      | false =>
        exact List.mem_filterMap.mpr ⟨.check false, he, rfl⟩
      | true => simp [isStopCheck] at hse
    | _ => simp_all [isStopCheck]
  rw [hcv] at hchk
  obtain ⟨i, hi, hfi⟩ := List.mem_map.mp hchk
  have hib := List.mem_range'_1.mp hi
  exact hm i k₁ (by omega) hfi

/-! ### Per-function trace lemmas -/

theorem send_paste_and_enter_spec (human : Bool) (st : St) :
    checkVals (send_paste_and_enter human st).1 = [] ∧
    pasteCount (send_paste_and_enter human st).1 = 1 ∧
    (send_paste_and_enter human st).2.k = st.k := by
  unfold send_paste_and_enter
  split <;> exact ⟨rfl, rfl, rfl⟩

theorem pasteCount_micro (c d : Prop) [Decidable c] [Decidable d] (x y : ℚ) :
    pasteCount (if c then (if d then [Ev.sleep x] else []) else [Ev.sleep y]) = 0 := by
  split
  · split <;> rfl
  · rfl

theorem checkVals_micro (c d : Prop) [Decidable c] [Decidable d] (x y : ℚ) :
    checkVals (if c then (if d then [Ev.sleep x] else []) else [Ev.sleep y]) = [] := by
  split
  · split <;> rfl
  · rfl

theorem sleepWaitLoop_spec (env : Env) (endT : ℚ) :
    ∀ (fuel : ℕ) (st : St),
      KSpan env st.k (sleepWaitLoop env endT fuel st).2.k
        (sleepWaitLoop env endT fuel st).1 ∧
      pasteCount (sleepWaitLoop env endT fuel st).1 = 0 := by
  intro fuel
  induction fuel with
  | zero => intro st; exact ⟨KSpan.ofNoChecks rfl, rfl⟩
  | succ n ih =>
    intro st
    rw [sleepWaitLoop]
    split
    · dsimp only
      split
      · rename_i hp hr
        dsimp only
        obtain ⟨ihk, ihp⟩ := ih
          { st with k := st.k + 1, p := st.p + 1 + 1 }
        refine ⟨?_, ?_⟩
        · refine KSpan.comp (KSpan.single hr)
            (KSpan.comp (KSpan.ofNoChecks (checkVals_micro _ _ _ _)) ihk)
        · rw [pasteCount_cons, pasteCount_append, ihp, pasteCount_micro]
          rfl
      · rename_i hp hr
        have hr' : env.runningAt st.k = false := by
          revert hr; cases h : env.runningAt st.k <;> simp
        exact ⟨KSpan.single hr', rfl⟩
    · exact ⟨KSpan.ofNoChecks rfl, rfl⟩

theorem smart_sleep_spec (env : Env) (human : Bool) (duration : ℚ)
    (fuel : ℕ) (st : St) :
    KSpan env st.k (smart_sleep env human duration fuel st).2.k
      (smart_sleep env human duration fuel st).1 ∧
    pasteCount (smart_sleep env human duration fuel st).1 = 0 := by
  unfold smart_sleep
  dsimp only
  have h := sleepWaitLoop_spec env
    (env.perfAt st.p +
      smartActual human (smartBase (env.cfgAt st.r).interval duration)
        (env.randQ st.u) (env.randQ (st.u + 1))) fuel
    { st with
      r := st.r + 1,
      u := if human ∧ smartBase (env.cfgAt st.r).interval duration > 1/10 then
        st.u + 2 else st.u,
      p := st.p + 1 }
  exact ⟨KSpan.consSkip rfl h.1, by rw [pasteCount_cons, h.2]; rfl⟩

theorem KSpan.ofNoChecksEq {env : Env} {k₀ k₁ : ℕ} {tr : List Ev}
    (h1 : checkVals tr = []) (h2 : k₁ = k₀) : KSpan env k₀ k₁ tr := by
  subst h2
  exact KSpan.ofNoChecks h1

theorem pAS_eq_zero_of_pc {tr : List Ev} (h : pasteCount tr = 0) :
    pastesAfterStop tr = 0 :=
  Nat.le_antisymm (h ▸ pastesAfterStop_le_pasteCount tr) (Nat.zero_le _)

theorem pAS_append_zero {a b : List Ev} (ha : pastesAfterStop a = 0)
    (hb : pasteCount b = 0) : pastesAfterStop (a ++ b) = 0 := by
  rw [pastesAfterStop_append]
  split
  · omega
  · have := pastesAfterStop_le_pasteCount b
    omega

theorem pAS_append_le_one {a b : List Ev} (ha : pastesAfterStop a = 0)
    (hb : pasteCount b ≤ 1) (hb0 : pastesAfterStop b = 0) :
    pastesAfterStop (a ++ b) ≤ 1 := by
  rw [pastesAfterStop_append]
  split
  · omega
  · omega

theorem check_human_break_spec (env : Env) (human : Bool) (fuel : ℕ) (st : St) :
    KSpan env st.k (check_human_break env human fuel st).2.k
      (check_human_break env human fuel st).1 ∧
    pasteCount (check_human_break env human fuel st).1 = 0 := by
  unfold check_human_break
  split
  · dsimp only
    split
    · have h := smart_sleep_spec env human (env.randQ st.u) fuel
        { st with u := st.u + 1, msgs_since_break := st.msgs_since_break + 1 }
      exact ⟨KSpan.consSkip rfl h.1, by rw [pasteCount_cons, h.2]; rfl⟩
    · exact ⟨KSpan.ofNoChecks rfl, rfl⟩
  · exact ⟨KSpan.ofNoChecks rfl, rfl⟩

theorem countdownLoop_spec (env : Env) (ts : ℚ) :
    ∀ (fuel : ℕ) (st : St),
      KSpan env st.k (countdownLoop env ts fuel st).2.1.k
        (countdownLoop env ts fuel st).1 ∧
      pasteCount (countdownLoop env ts fuel st).1 = 0 := by
  intro fuel
  induction fuel with
  | zero => intro st; exact ⟨KSpan.ofNoChecks rfl, rfl⟩
  | succ n ih =>
    intro st
    rw [countdownLoop]
    split
    · dsimp only
      split
      · rename_i hr _
        exact ⟨KSpan.comp (KSpan.single hr) (KSpan.ofNoChecks rfl), rfl⟩
      · rename_i hr _
        obtain ⟨ihk, ihp⟩ := ih { st with k := st.k + 1, t := st.t + 1 }
        refine ⟨KSpan.comp (KSpan.single hr)
          (KSpan.consSkip rfl (KSpan.consSkip rfl ihk)), ?_⟩
        rw [pasteCount_cons, pasteCount_cons, pasteCount_cons, ihp]
        rfl
    · rename_i hr
      have hr' : env.runningAt st.k = false := by
        revert hr; cases h : env.runningAt st.k <;> simp
      exact ⟨KSpan.single hr', rfl⟩

theorem search_contact_spec (env : Env) (name : PyStr) (st : St) :
    checkVals (search_contact env name st).1 = [] ∧
    pasteCount (search_contact env name st).1 = 0 ∧
    (search_contact env name st).2.1.k = st.k := by
  unfold search_contact
  split <;> exact ⟨rfl, rfl, rfl⟩

theorem sawStopB_eq_false_of_noChecks {tr : List Ev}
    (h : checkVals tr = []) : sawStopB tr = false := by
  induction tr with
  | nil => rfl
  | cons e t ih =>
    cases e with
    | check b => simp [checkVals] at h
    | _ =>
      simp only [checkVals, List.filterMap_cons] at h ih ⊢
      simp only [sawStopB, List.any_cons] at *
      simp_all [isStopCheck]

theorem pAS_append_of_noStop {a b : List Ev} (h : sawStopB a = false) :
    pastesAfterStop (a ++ b) = pastesAfterStop b := by
  rw [pastesAfterStop_append, h]
  simp

theorem ite_sleep_spec (env : Env) (human : Bool) (c : Prop) [Decidable c]
    (d : ℚ) (fuel : ℕ) (st : St) :
    KSpan env st.k
      (if c then smart_sleep env human d fuel st else ([], st)).2.k
      (if c then smart_sleep env human d fuel st else ([], st)).1 ∧
    pasteCount (if c then smart_sleep env human d fuel st else ([], st)).1 = 0 := by
  split
  · exact smart_sleep_spec env human d fuel st
  · exact ⟨KSpan.ofNoChecks rfl, rfl⟩

theorem textBlock_spec (env : Env) (human stealth : Bool) (active_msg : PyStr)
    (active_files : List PyStr) (current_limit sent fuel : ℕ) (st : St) :
    KSpan env st.k
      (textBlock env human stealth active_msg active_files current_limit sent
        fuel st).2.k
      (textBlock env human stealth active_msg active_files current_limit sent
        fuel st).1 ∧
    pastesAfterStop
      (textBlock env human stealth active_msg active_files current_limit sent
        fuel st).1 = 0 ∧
    pasteCount
      (textBlock env human stealth active_msg active_files current_limit sent
        fuel st).1 = 1 := by
  unfold textBlock
  dsimp only
  set fm : PyStr := humanize (env.semRand st.u) active_msg (current_limit : ℤ) sent stealth with hfm
  set stA : St := { st with u := st.u + 1, clip := fm } with hstA
  have hP := send_paste_and_enter_spec human stA
  have hB := check_human_break_spec env human fuel (send_paste_and_enter human stA).2
  have hG := ite_sleep_spec env human (active_files ≠ []) (1/20) fuel
    (check_human_break env human fuel (send_paste_and_enter human stA).2).2
  refine ⟨?_, ?_, ?_⟩
  · exact KSpan.consSkip rfl
      (KSpan.comp (KSpan.comp (KSpan.ofNoChecksEq hP.1 hP.2.2) hB.1) hG.1)
  · rw [pastesAfterStop_cons_of_not (Ev.copyText fm) _ rfl]
    refine pAS_append_zero ?_ hG.2
    rw [pAS_append_of_noStop (sawStopB_eq_false_of_noChecks hP.1)]
    exact pAS_eq_zero_of_pc hB.2
  · rw [pasteCount_cons, pasteCount_append, pasteCount_append, hP.2.1, hB.2, hG.2]
    rfl

theorem filesBlock_spec (env : Env) (human stealth : Bool)
    (active_files : List PyStr) (fuel : ℕ) (st : St) :
    KSpan env st.k
      (filesBlock env human stealth active_files fuel st).2.k
      (filesBlock env human stealth active_files fuel st).1 ∧
    pastesAfterStop (filesBlock env human stealth active_files fuel st).1 = 0 ∧
    pasteCount (filesBlock env human stealth active_files fuel st).1 = 1 := by
  unfold filesBlock
  dsimp only
  set ff : List PyStr :=
    if stealth = true then env.procBatch st.b active_files else active_files with hff
  set stA : St := { st with b := if stealth = true then st.b + 1 else st.b } with hstA
  have hP := send_paste_and_enter_spec human stA
  have hB := check_human_break_spec env human fuel (send_paste_and_enter human stA).2
  refine ⟨?_, ?_, ?_⟩
  · exact KSpan.consSkip rfl (KSpan.consSkip rfl (KSpan.consSkip rfl
      (KSpan.comp (KSpan.ofNoChecksEq hP.1 hP.2.2) hB.1)))
  · rw [pastesAfterStop_cons_of_not Ev.clearEvent _ rfl,
      pastesAfterStop_cons_of_not (Ev.emitFiles ff) _ rfl,
      pastesAfterStop_cons_of_not (Ev.waitEvent 5) _ rfl,
      pAS_append_of_noStop (sawStopB_eq_false_of_noChecks hP.1)]
    exact pAS_eq_zero_of_pc hB.2
  · rw [pasteCount_cons, pasteCount_cons, pasteCount_cons, pasteCount_append,
      hP.2.1, hB.2]
    rfl

theorem sendContent_spec (env : Env) (human stealth : Bool) (active_msg : PyStr)
    (active_files : List PyStr) (current_limit sent fuel : ℕ) (st : St) :
    KSpan env st.k
      (sendContent env human stealth active_msg active_files current_limit sent
        fuel st).2.k
      (sendContent env human stealth active_msg active_files current_limit sent
        fuel st).1 ∧
    pastesAfterStop
      (sendContent env human stealth active_msg active_files current_limit sent
        fuel st).1 ≤ 1 := by
  unfold sendContent
  dsimp only
  have hM : KSpan env st.k
      (if active_msg ≠ [] then
        textBlock env human stealth active_msg active_files current_limit sent
          fuel st else ([], st)).2.k
      (if active_msg ≠ [] then
        textBlock env human stealth active_msg active_files current_limit sent
          fuel st else ([], st)).1 ∧
      pastesAfterStop (if active_msg ≠ [] then
        textBlock env human stealth active_msg active_files current_limit sent
          fuel st else ([], st)).1 = 0 := by
    split
    · exact ⟨(textBlock_spec env human stealth active_msg active_files
        current_limit sent fuel st).1,
        (textBlock_spec env human stealth active_msg active_files
        current_limit sent fuel st).2.1⟩
    · exact ⟨KSpan.ofNoChecks rfl, rfl⟩
  have hF : ∀ st' : St, KSpan env st'.k
      (if active_files ≠ [] then filesBlock env human stealth active_files fuel st'
        else ([], st')).2.k
      (if active_files ≠ [] then filesBlock env human stealth active_files fuel st'
        else ([], st')).1 ∧
      pastesAfterStop (if active_files ≠ [] then
        filesBlock env human stealth active_files fuel st' else ([], st')).1 = 0 ∧
      pasteCount (if active_files ≠ [] then
        filesBlock env human stealth active_files fuel st' else ([], st')).1 ≤ 1 := by
    intro st'
    split
    · refine ⟨(filesBlock_spec env human stealth active_files fuel st').1,
        (filesBlock_spec env human stealth active_files fuel st').2.1, ?_⟩
      rw [(filesBlock_spec env human stealth active_files fuel st').2.2]
    · exact ⟨KSpan.ofNoChecks rfl, rfl, by simp [pasteCount]⟩
  refine ⟨KSpan.comp hM.1 (hF _).1, ?_⟩
  exact pAS_append_le_one hM.2 (hF _).2.2 (hF _).2.1

theorem pAS_append_pcz_right {a b : List Ev} (hb : pasteCount b = 0) :
    pastesAfterStop (a ++ b) ≤ pastesAfterStop a := by
  rw [pastesAfterStop_append]
  split
  · omega
  · have := pastesAfterStop_le_pasteCount b
    omega

theorem pAS_append_le_one2 {a b : List Ev} (ha : pastesAfterStop a ≤ 1)
    (hd : sawStopB a = true → pasteCount b = 0)
    (hb : pastesAfterStop b ≤ 1) : pastesAfterStop (a ++ b) ≤ 1 := by
  rw [pastesAfterStop_append]
  split
  · rename_i hs
    have := hd hs
    omega
  · exact hb

theorem checkVals_progress (c : Prop) [Decidable c] (done total : ℕ) :
    checkVals (if c then [Ev.emitProgress done total] else []) = [] := by
  split <;> rfl

theorem pasteCount_progress (c : Prop) [Decidable c] (done total : ℕ) :
    pasteCount (if c then [Ev.emitProgress done total] else []) = 0 := by
  split <;> rfl

theorem msgLoop_spec (env : Env) (hm : env.Mono) (human stealth : Bool)
    (total_targets : ℕ) (is_custom : Bool) (custom_msg : PyStr)
    (custom_files : List PyStr) :
    ∀ (fuel sent : ℕ) (st : St),
      KSpan env st.k
        (msgLoop env human stealth total_targets is_custom custom_msg
          custom_files fuel sent st).2.k
        (msgLoop env human stealth total_targets is_custom custom_msg
          custom_files fuel sent st).1 ∧
      pastesAfterStop
        (msgLoop env human stealth total_targets is_custom custom_msg
          custom_files fuel sent st).1 ≤ 1 ∧
      (env.runningAt st.k = false →
        pasteCount (msgLoop env human stealth total_targets is_custom custom_msg
          custom_files fuel sent st).1 = 0) := by
  intro fuel
  induction fuel with
  | zero =>
    intro sent st
    exact ⟨KSpan.ofNoChecks rfl, Nat.zero_le 1, fun _ => rfl⟩
  | succ n ih =>
    intro sent st
    rw [msgLoop]
    split
    · rename_i hr
      dsimp only
      split
      · refine ⟨KSpan.comp (KSpan.single hr) (KSpan.ofNoChecks rfl), ?_, ?_⟩
        · exact Nat.zero_le 1
        · intro hf
          rw [hf] at hr
          exact absurd hr (by simp)
      · dsimp only
        set L : ℕ := (env.cfgAt st.r).count_per_person with hL
        set IV : ℚ := (env.cfgAt st.r).interval with hIV
        set AM : PyStr :=
          if is_custom then custom_msg else (env.cfgAt (st.r + 1)).global_msg with hAM
        set AF : List PyStr :=
          if is_custom then custom_files else (env.cfgAt (st.r + 1)).global_files with hAF
        set stC : St :=
          { st with k := st.k + 1, r := if is_custom then st.r + 1 else st.r + 1 + 1 }
          with hstC
        set resC := sendContent env human stealth AM AF L sent n stC with hresC
        set cnd : Prop :=
          (resC.2.ops_done + 1 ≥ total_targets * L ∨ sent + 1 ≥ L) ∨
            env.timeAt resC.2.t - resC.2.last_ui > 1/5 with hcnd
        set stPr : St :=
          { resC.2 with
            t := resC.2.t + 1,
            ops_done := resC.2.ops_done + 1,
            last_ui := if cnd then env.timeAt resC.2.t else resC.2.last_ui }
          with hstPr
        set resS := if sent + 1 < L then smart_sleep env human IV n stPr
          else ([], stPr) with hresS
        set resR := msgLoop env human stealth total_targets is_custom custom_msg
          custom_files n (sent + 1) resS.2 with hresR
        have hC := sendContent_spec env human stealth AM AF L sent n stC
        rw [← hresC] at hC
        have hPr : KSpan env resC.2.k stPr.k
            (if cnd then [Ev.emitProgress (resC.2.ops_done + 1)
              (total_targets * L)] else []) :=
          KSpan.ofNoChecksEq (checkVals_progress _ _ _) rfl
        have hS := ite_sleep_spec env human (sent + 1 < L) IV n stPr
        rw [← hresS] at hS
        have hR := ih (sent + 1) resS.2
        rw [← hresR] at hR
        refine ⟨?_, ?_, ?_⟩
        · exact KSpan.comp (KSpan.single hr) (KSpan.consSkip rfl
            (KSpan.comp (KSpan.comp (KSpan.comp hC.1 hPr) hS.1) hR.1))
        · rw [pastesAfterStop_cons_of_not (Ev.check true) _ rfl,
            pastesAfterStop_cons_of_not (Ev.readParams _ _) _ rfl]
          refine pAS_append_le_one2 ?_ ?_ hR.2.1
          · refine pAS_append_le_one2 ?_ (fun _ => hS.2) ?_
            · exact le_trans (pAS_append_pcz_right (pasteCount_progress _ _ _))
                hC.2
            · have h0 := pAS_eq_zero_of_pc hS.2
              omega
          · intro hsaw
            refine hR.2.2 ?_
            exact KSpan.stop_flag hm
              (KSpan.comp (KSpan.comp hC.1 hPr) hS.1) hsaw
        · intro hf
          rw [hf] at hr
          exact absurd hr (by simp)
    · rename_i hr
      have hr' : env.runningAt st.k = false := by
        revert hr; cases h : env.runningAt st.k <;> simp
      exact ⟨KSpan.single hr', by rw [pastesAfterStop]; exact Nat.zero_le 1,
        fun _ => rfl⟩

theorem runTarget_spec (env : Env) (hm : env.Mono) (sc : SCfg)
    (total_targets : ℕ) (tgt : Target) (fuel : ℕ) (st : St) :
    KSpan env st.k (runTarget env sc total_targets tgt fuel st).2.k
      (runTarget env sc total_targets tgt fuel st).1 ∧
    pastesAfterStop (runTarget env sc total_targets tgt fuel st).1 ≤ 1 := by
  unfold runTarget
  dsimp only
  split
  · exact ⟨KSpan.ofNoChecksEq rfl rfl,
      le_of_eq_of_le (pAS_eq_zero_of_pc rfl) (Nat.zero_le 1)⟩
  · split
    · -- need_search
      set stB : St := { st with r := st.r + 1, c := st.c + 1 } with hstB
      set resSe := search_contact env tgt.name stB with hresSe
      have hSe := search_contact_spec env tgt.name stB
      rw [← hresSe] at hSe
      split
      · -- search succeeded
        set resW := smart_sleep env sc.enable_human_simulation (1/2) fuel
          resSe.2.1 with hresW
        set resM := msgLoop env sc.enable_human_simulation
          sc.enable_stealth_mode total_targets (tgt.msg ≠ [] ∨ tgt.files ≠ [])
          tgt.msg tgt.files fuel 0 resW.2 with hresM
        set stX : St := { resM.2 with
          clip := if env.clipWriteOk resM.2.c then
            (if env.clipReadOk st.c then st.clip else [])
            else resM.2.clip,
          c := resM.2.c + 1 } with hstX
        set resG := smart_sleep env sc.enable_human_simulation (1/2) fuel stX
          with hresG
        have hW := smart_sleep_spec env sc.enable_human_simulation (1/2) fuel
          resSe.2.1
        rw [← hresW] at hW
        have hM := msgLoop_spec env hm sc.enable_human_simulation
          sc.enable_stealth_mode total_targets (tgt.msg ≠ [] ∨ tgt.files ≠ [])
          tgt.msg tgt.files fuel 0 resW.2
        rw [← hresM] at hM
        have hG := smart_sleep_spec env sc.enable_human_simulation (1/2) fuel stX
        rw [← hresG] at hG
        have hSeK : KSpan env st.k resSe.2.1.k resSe.1 :=
          KSpan.ofNoChecksEq hSe.1 hSe.2.2
        have hFoc : KSpan env resW.2.k resW.2.k [Ev.focusInput] :=
          KSpan.ofNoChecks rfl
        have hScX : KSpan env resM.2.k stX.k [Ev.scopeExit] :=
          KSpan.ofNoChecks rfl
        refine ⟨?_, ?_⟩
        · exact KSpan.consSkip rfl (KSpan.consSkip rfl
            (KSpan.comp (KSpan.comp (KSpan.comp (KSpan.comp
              (KSpan.comp hSeK hW.1) hFoc) hM.1) hScX) hG.1))
        · rw [pastesAfterStop_cons_of_not Ev.scopeEnter _ rfl,
            pastesAfterStop_cons_of_not Ev.log _ rfl]
          refine le_trans (pAS_append_pcz_right hG.2) ?_
          refine le_trans (pAS_append_pcz_right rfl) ?_
          refine pAS_append_le_one2 ?_ ?_ hM.2.1
          · refine le_of_eq_of_le (pAS_eq_zero_of_pc ?_) (Nat.zero_le 1)
            rw [pasteCount_append, pasteCount_append, hSe.2.1, hW.2]
            rfl
          · intro hsaw
            refine hM.2.2 ?_
            refine KSpan.stop_flag hm
              (KSpan.comp (KSpan.comp hSeK hW.1) hFoc) hsaw
      · -- search failed: the target is skipped entirely
        refine ⟨?_, ?_⟩
        · refine KSpan.consSkip rfl (KSpan.consSkip rfl
            (KSpan.ofNoChecksEq ?_ hSe.2.2))
          rw [checkVals_append, hSe.1]
          rfl
        · refine le_of_eq_of_le (pAS_eq_zero_of_pc ?_) (Nat.zero_le 1)
          rw [pasteCount_cons, pasteCount_cons, pasteCount_append, hSe.2.1]
          rfl
    · -- current-window target: no search
      set stB : St := { st with r := st.r + 1, c := st.c + 1 } with hstB
      set resM := msgLoop env sc.enable_human_simulation
        sc.enable_stealth_mode total_targets (tgt.msg ≠ [] ∨ tgt.files ≠ [])
        tgt.msg tgt.files fuel 0 stB with hresM
      set stX : St := { resM.2 with
        clip := if env.clipWriteOk resM.2.c then
          (if env.clipReadOk st.c then st.clip else [])
          else resM.2.clip,
        c := resM.2.c + 1 } with hstX
      set resG := smart_sleep env sc.enable_human_simulation (1/2) fuel stX
        with hresG
      have hM := msgLoop_spec env hm sc.enable_human_simulation
        sc.enable_stealth_mode total_targets (tgt.msg ≠ [] ∨ tgt.files ≠ [])
        tgt.msg tgt.files fuel 0 stB
      rw [← hresM] at hM
      have hG := smart_sleep_spec env sc.enable_human_simulation (1/2) fuel stX
      rw [← hresG] at hG
      have hFoc : KSpan env st.k stB.k [Ev.focusInput] := KSpan.ofNoChecks rfl
      have hScX : KSpan env resM.2.k stX.k [Ev.scopeExit] := KSpan.ofNoChecks rfl
      refine ⟨?_, ?_⟩
      · exact KSpan.consSkip rfl (KSpan.consSkip rfl
          (KSpan.comp (KSpan.comp (KSpan.comp hFoc hM.1) hScX) hG.1))
      · rw [pastesAfterStop_cons_of_not Ev.scopeEnter _ rfl,
          pastesAfterStop_cons_of_not Ev.log _ rfl]
        refine le_trans (pAS_append_pcz_right hG.2) ?_
        refine le_trans (pAS_append_pcz_right rfl) ?_
        refine pAS_append_le_one2 ?_ ?_ hM.2.1
        · exact le_of_eq_of_le (pAS_eq_zero_of_pc rfl) (Nat.zero_le 1)
        · intro hsaw
          exact hM.2.2 (KSpan.stop_flag hm hFoc hsaw)

theorem targetLoop_spec (env : Env) (hm : env.Mono) (sc : SCfg)
    (total_targets : ℕ) :
    ∀ (targets : List Target) (fuel : ℕ) (st : St),
      KSpan env st.k (targetLoop env sc total_targets targets fuel st).2.k
        (targetLoop env sc total_targets targets fuel st).1 ∧
      pastesAfterStop (targetLoop env sc total_targets targets fuel st).1 ≤ 1 ∧
      (env.runningAt st.k = false →
        pasteCount (targetLoop env sc total_targets targets fuel st).1 = 0) := by
  intro targets
  induction targets with
  | nil => intro fuel st; exact ⟨KSpan.ofNoChecks rfl, Nat.zero_le 1, fun _ => rfl⟩
  | cons tgt rest ih =>
    intro fuel st
    rw [targetLoop]
    split
    · rename_i hr
      dsimp only
      set res1 := runTarget env sc total_targets tgt fuel
        { st with k := st.k + 1 } with hres1
      set resR := targetLoop env sc total_targets rest fuel res1.2 with hresR
      have h1 := runTarget_spec env hm sc total_targets tgt fuel
        { st with k := st.k + 1 }
      rw [← hres1] at h1
      have h2 := ih fuel res1.2
      rw [← hresR] at h2
      refine ⟨?_, ?_, ?_⟩
      · exact KSpan.comp (KSpan.single hr) (KSpan.comp h1.1 h2.1)
      · rw [pastesAfterStop_cons_of_not (Ev.check true) _ rfl]
        refine pAS_append_le_one2 h1.2 ?_ h2.2.1
        intro hsaw
        exact h2.2.2 (KSpan.stop_flag hm h1.1 hsaw)
      · intro hf
        rw [hf] at hr
        exact absurd hr (by simp)
    · rename_i hr
      have hr' : env.runningAt st.k = false := by
        revert hr; cases h : env.runningAt st.k <;> simp
      exact ⟨KSpan.single hr', by rw [pastesAfterStop]; exact Nat.zero_le 1,
        fun _ => rfl⟩

theorem coolLoop_spec (env : Env) :
    ∀ (n : ℕ) (st : St),
      KSpan env st.k (coolLoop env n st).2.k (coolLoop env n st).1 ∧
      pasteCount (coolLoop env n st).1 = 0 := by
  intro n
  induction n with
  | zero => intro st; exact ⟨KSpan.ofNoChecks rfl, rfl⟩
  | succ m ih =>
    intro st
    rw [coolLoop]
    split
    · rename_i hr
      dsimp only
      obtain ⟨ihk, ihp⟩ := ih { st with k := st.k + 1 }
      refine ⟨KSpan.comp (KSpan.single hr) (KSpan.consSkip rfl ihk), ?_⟩
      rw [pasteCount_cons, pasteCount_cons, ihp]
      rfl
    · rename_i hr
      have hr' : env.runningAt st.k = false := by
        revert hr; cases h : env.runningAt st.k <;> simp
      exact ⟨KSpan.single hr', rfl⟩

theorem autoMinimizePart_spec (env : Env) (autoMin : Bool) (st : St) :
    KSpan env st.k (autoMinimizePart env autoMin st).2.k
      (autoMinimizePart env autoMin st).1 ∧
    pasteCount (autoMinimizePart env autoMin st).1 = 0 := by
  unfold autoMinimizePart
  split
  · split
    · rename_i hr
      dsimp only
      set resC := coolLoop env 10 { st with k := st.k + 1 } with hresC
      have hC := coolLoop_spec env 10 { st with k := st.k + 1 }
      rw [← hresC] at hC
      split
      · rename_i hr2
        refine ⟨?_, ?_⟩
        · refine KSpan.comp (KSpan.single hr) (KSpan.consSkip rfl
            (KSpan.comp hC.1 (KSpan.comp (KSpan.single hr2)
              (KSpan.ofNoChecks rfl))))
        · rw [pasteCount_cons, pasteCount_cons, pasteCount_append, hC.2]
          rfl
      · rename_i hr2
        have hr2' : env.runningAt resC.2.k = false := by
          revert hr2; cases h : env.runningAt resC.2.k <;> simp
        refine ⟨?_, ?_⟩
        · exact KSpan.comp (KSpan.single hr) (KSpan.consSkip rfl
            (KSpan.comp hC.1 (KSpan.single hr2')))
        · rw [pasteCount_cons, pasteCount_cons, pasteCount_append, hC.2]
          rfl
    · rename_i hr
      have hr' : env.runningAt st.k = false := by
        revert hr; cases h : env.runningAt st.k <;> simp
      exact ⟨KSpan.single hr', rfl⟩
  · exact ⟨KSpan.ofNoChecks rfl, rfl⟩

theorem runMain_spec (env : Env) (hm : env.Mono) (sc : SCfg)
    (total_targets : ℕ) (fuel : ℕ) (st : St) :
    KSpan env st.k (runMain env sc total_targets fuel st).2.k
      (runMain env sc total_targets fuel st).1 ∧
    pastesAfterStop (runMain env sc total_targets fuel st).1 ≤ 1 ∧
    (env.runningAt st.k = false →
      pasteCount (runMain env sc total_targets fuel st).1 = 0) := by
  unfold runMain
  split
  · dsimp only
    set resW := smart_sleep env sc.enable_human_simulation (1/2) fuel st
      with hresW
    set resT := targetLoop env sc total_targets sc.target_list fuel resW.2
      with hresT
    set resA := autoMinimizePart env sc.auto_minimize_done resT.2 with hresA
    have hW := smart_sleep_spec env sc.enable_human_simulation (1/2) fuel st
    rw [← hresW] at hW
    have hT := targetLoop_spec env hm sc total_targets sc.target_list fuel resW.2
    rw [← hresT] at hT
    have hA := autoMinimizePart_spec env sc.auto_minimize_done resT.2
    rw [← hresA] at hA
    have hLg : KSpan env resW.2.k resW.2.k [Ev.log] := KSpan.ofNoChecks rfl
    have hFin : KSpan env resA.2.k resA.2.k [Ev.finished] := KSpan.ofNoChecks rfl
    refine ⟨?_, ?_, ?_⟩
    · exact KSpan.consSkip rfl (KSpan.consSkip rfl (KSpan.consSkip rfl
        (KSpan.comp (KSpan.comp (KSpan.comp (KSpan.comp hW.1 hLg) hT.1)
          hA.1) hFin)))
    · rw [pastesAfterStop_cons_of_not Ev.log _ rfl,
        pastesAfterStop_cons_of_not Ev.connectTry _ rfl,
        pastesAfterStop_cons_of_not Ev.activate _ rfl]
      refine le_trans (pAS_append_pcz_right rfl) ?_
      refine le_trans (pAS_append_pcz_right hA.2) ?_
      refine pAS_append_le_one2 ?_ ?_ hT.2.1
      · refine le_of_eq_of_le (pAS_eq_zero_of_pc ?_) (Nat.zero_le 1)
        rw [pasteCount_append, hW.2]
        rfl
      · intro hsaw
        exact hT.2.2 (KSpan.stop_flag hm (KSpan.comp hW.1 hLg) hsaw)
    · intro hf
      rw [pasteCount_cons, pasteCount_cons, pasteCount_cons, pasteCount_append,
        pasteCount_append, pasteCount_append, pasteCount_append, hW.2, hA.2]
      have hTf : env.runningAt resW.2.k = false :=
        hm st.k resW.2.k hW.1.1 hf
      rw [hT.2.2 hTf]
      rfl
  · exact ⟨KSpan.ofNoChecksEq rfl rfl, Nat.zero_le 1, fun _ => rfl⟩

theorem run_spec (env : Env) (hm : env.Mono) (sc : SCfg) (fuel : ℕ) (st : St) :
    KSpan env st.k (run env sc fuel st).2.k (run env sc fuel st).1 ∧
    pastesAfterStop (run env sc fuel st).1 ≤ 1 := by
  unfold run
  split
  · dsimp only
    set resCd := countdownLoop env sc.target_timestamp fuel st with hresCd
    have hCd := countdownLoop_spec env sc.target_timestamp fuel st
    rw [← hresCd] at hCd
    split
    · refine ⟨?_, ?_⟩
      · refine KSpan.consSkip rfl (KSpan.consSkip rfl
          (KSpan.comp hCd.1 (KSpan.ofNoChecks rfl)))
      · rw [pastesAfterStop_cons_of_not Ev.log _ rfl,
          pastesAfterStop_cons_of_not Ev.log _ rfl]
        refine le_of_eq_of_le (pAS_append_zero (pAS_eq_zero_of_pc hCd.2) rfl)
          (Nat.zero_le 1)
    · refine ⟨?_, ?_⟩
      · exact KSpan.consSkip rfl (KSpan.consSkip rfl hCd.1)
      · rw [pastesAfterStop_cons_of_not Ev.log _ rfl,
          pastesAfterStop_cons_of_not Ev.log _ rfl]
        exact le_of_eq_of_le (pAS_eq_zero_of_pc hCd.2) (Nat.zero_le 1)
    · set resMn := runMain env sc sc.target_list.length fuel resCd.2.1
        with hresMn
      have hMn := runMain_spec env hm sc sc.target_list.length fuel resCd.2.1
      rw [← hresMn] at hMn
      refine ⟨?_, ?_⟩
      · exact KSpan.consSkip rfl (KSpan.consSkip rfl
          (KSpan.comp hCd.1 hMn.1))
      · rw [pastesAfterStop_cons_of_not Ev.log _ rfl,
          pastesAfterStop_cons_of_not Ev.log _ rfl]
        refine pAS_append_le_one2
          (le_of_eq_of_le (pAS_eq_zero_of_pc hCd.2) (Nat.zero_le 1)) ?_ hMn.2.1
        intro hsaw
        exact hMn.2.2 (KSpan.stop_flag hm hCd.1 hsaw)
  · dsimp only
    set resMn := runMain env sc sc.target_list.length fuel st with hresMn
    have hMn := runMain_spec env hm sc sc.target_list.length fuel st
    rw [← hresMn] at hMn
    refine ⟨KSpan.consSkip rfl hMn.1, ?_⟩
    rw [pastesAfterStop_cons_of_not Ev.log _ rfl]
    exact hMn.2.1

/-- Once the busy-wait loop of `_smart_sleep` runs with the stop flag
down, it exits at its next check (or immediately when the deadline has
passed). -/
theorem sleepWaitLoop_dead (env : Env) (endT : ℚ) (fuel : ℕ) (s : St)
    (hf : env.runningAt s.k = false) :
    (sleepWaitLoop env endT fuel s).1 = [] ∨
    (sleepWaitLoop env endT fuel s).1 = [Ev.check false] := by
  cases fuel with
  | zero => exact Or.inl rfl
  | succ n =>
    rw [sleepWaitLoop]
    have h : ¬(env.runningAt s.k = true) := by simp [hf]
    by_cases hp : env.perfAt s.p < endT
    · rw [if_pos hp]
      dsimp only
      rw [if_neg h]
      exact Or.inr rfl
    · rw [if_neg hp]
      exact Or.inl rfl

/-- The countdown loop exits at its next check once the flag is down. -/
theorem countdownLoop_dead (env : Env) (ts : ℚ) (f : ℕ) (s : St)
    (hf : env.runningAt s.k = false) :
    (countdownLoop env ts (f + 1) s).1 = [Ev.check false] ∧
    (countdownLoop env ts (f + 1) s).2.2 = CdExit.stopped := by
  have h : ¬(env.runningAt s.k = true) := by simp [hf]
  rw [countdownLoop, if_neg h]
  exact ⟨rfl, rfl⟩

/-- The per-message loop exits at its next check once the flag is down,
without any further paste-and-enter. -/
theorem msgLoop_dead (env : Env) (hu stl : Bool) (tt : ℕ) (ic : Bool)
    (cm : PyStr) (cf : List PyStr) (f sent : ℕ) (s : St)
    (hf : env.runningAt s.k = false) :
    (msgLoop env hu stl tt ic cm cf (f + 1) sent s).1 = [Ev.check false] := by
  have h : ¬(env.runningAt s.k = true) := by simp [hf]
  rw [msgLoop, if_neg h]

/-- The per-target loop exits at its next check once the flag is down. -/
theorem targetLoop_dead (env : Env) (sc : SCfg) (tt : ℕ) (tgt : Target)
    (rest : List Target) (f : ℕ) (s : St)
    (hf : env.runningAt s.k = false) :
    (targetLoop env sc tt (tgt :: rest) f s).1 = [Ev.check false] := by
  have h : ¬(env.runningAt s.k = true) := by simp [hf]
  rw [targetLoop, if_neg h]

/-- With a monotone stop flag, once a check of a trace observes `false`
every later check of that trace observes `false` as well. -/
theorem KSpan.checks_monotone {env : Env} (hm : env.Mono) {k₀ k₁ : ℕ}
    {tr : List Ev} (h : KSpan env k₀ k₁ tr) :
    ∀ i j, i ≤ j → j < (checkVals tr).length →
      (checkVals tr).getD i true = false → (checkVals tr).getD j true = false := by
  obtain ⟨hle, hcv⟩ := h
  intro i j hij hj hi
  rw [hcv] at hj hi ⊢
  have hlen : ((List.range' k₀ (k₁ - k₀)).map env.runningAt).length = k₁ - k₀ := by
    simp
  rw [hlen] at hj
  have hi' : i < k₁ - k₀ := lt_of_le_of_lt hij hj
  rw [List.getD_eq_getElem _ _ (by simpa using hi')] at hi
  rw [List.getD_eq_getElem _ _ (by simpa using hj)]
  simp only [List.getElem_map, List.getElem_range', one_mul] at hi ⊢
  exact hm (k₀ + i) (k₀ + j) (by omega) hi

/-! ### Claim C2: interruptibility -/

/-- Claim C2 (amended): `stop()` makes `is_running()` return `False`;
with a monotone flag history, once one `is_running()` check of `run`'s
trace observes the cleared flag every later check does too; the busy
wait of `_smart_sleep` and the countdown, per-message and per-target
loops all exit at their next check once the flag is down; and at most
one further paste-and-enter is issued after the stop has first been
observed — namely the attachment paste of the message iteration already
in flight, whose dispatch runs without a further flag check. -/
theorem claim_C2 (env : Env) (sc : SCfg) (fuel : ℕ) (st : St)
    (hm : env.Mono) :
    (∀ w : WorkerFlag, w.stop.is_running = false) ∧
    (∀ i j, i ≤ j → j < (checkVals (run env sc fuel st).1).length →
      (checkVals (run env sc fuel st).1).getD i true = false →
      (checkVals (run env sc fuel st).1).getD j true = false) ∧
    (∀ (endT : ℚ) (f : ℕ) (s : St), env.runningAt s.k = false →
      (sleepWaitLoop env endT f s).1 = [] ∨
      (sleepWaitLoop env endT f s).1 = [Ev.check false]) ∧
    (∀ (ts : ℚ) (f : ℕ) (s : St), env.runningAt s.k = false →
      (countdownLoop env ts (f + 1) s).1 = [Ev.check false]) ∧
    (∀ (hu stl : Bool) (tt : ℕ) (ic : Bool) (cm : PyStr) (cf : List PyStr)
      (f sent : ℕ) (s : St), env.runningAt s.k = false →
      (msgLoop env hu stl tt ic cm cf (f + 1) sent s).1 = [Ev.check false]) ∧
    (∀ (tgt : Target) (rest : List Target) (tt f : ℕ) (s : St),
      env.runningAt s.k = false →
      (targetLoop env sc tt (tgt :: rest) f s).1 = [Ev.check false]) ∧
    pastesAfterStop (run env sc fuel st).1 ≤ 1 := by
  refine ⟨fun _ => rfl, ?_, ?_, ?_, ?_, ?_, ?_⟩
  · exact KSpan.checks_monotone hm (run_spec env hm sc fuel st).1
  · exact fun endT f s hf => sleepWaitLoop_dead env endT f s hf
  · exact fun ts f s hf => (countdownLoop_dead env ts f s hf).1
  · exact fun hu stl tt ic cm cf f sent s hf =>
      msgLoop_dead env hu stl tt ic cm cf f sent s hf
  · exact fun tgt rest tt f s hf => targetLoop_dead env sc tt tgt rest f s hf
  · exact (run_spec env hm sc fuel st).2

/-- Concrete environment for the claim C2 counterexample: the stop takes
effect right before the third `is_running()` check, which is the check
inside the 0.05 s gap sleep between the text send and the attachment
send of the first message iteration. -/
def cexEnv : Env :=
  { runningAt := fun k => decide (k < 2)
    timeAt := fun _ => 0
    perfAt := fun p => if p = 3 then 2000 else 1000 * p
    cfgAt := fun _ =>
      { count_per_person := 1, interval := 1/2, global_msg := [],
        global_files := [] }
    randQ := fun _ => 1
    randN := fun _ => 20
    semRand := fun _ => ⟨['x'], ['x'], ['x']⟩
    procBatch := fun _ fs => fs
    clipReadOk := fun _ => true
    clipWriteOk := fun _ => true
    searchOk := fun _ => true
    connectOk := true }

/-- Concrete task for the claim C2 counterexample: one current-window
target with a text message and one attachment. -/
def cexSc : SCfg :=
  { target_list := [⟨curWindowName, ['m'], [['f']]⟩]
    target_timestamp := 0
    enable_stealth_mode := false
    enable_human_simulation := false
    auto_minimize_done := false }

theorem cexEnv_mono : cexEnv.Mono := by
  intro i j hij hi
  simp only [cexEnv, decide_eq_false_iff_not, not_lt] at hi ⊢
  omega

section
attribute [local semireducible] Rat.add Rat.mul Rat.sub Rat.inv Rat.ofScientific

/-- Claim C2 counterexample: with a monotone stop history that clears
the flag during the 0.05 s gap sleep of a message iteration, exactly one
paste-and-enter (the attachment paste of that iteration) is still issued
after a check has observed the cleared flag, so the claim that no
message is sent after the stop flag has been observed is false. -/
theorem claim_C2_cex :
    cexEnv.Mono ∧
    pastesAfterStop (run cexEnv cexSc 20 (initSt [] 20)).1 = 1 :=
  ⟨cexEnv_mono, by decide⟩

/-- Witness for claim C2 at the concrete environment. -/
theorem claim_C2_witness :
    cexEnv.Mono ∧
    pastesAfterStop (run cexEnv cexSc 20 (initSt [] 20)).1 ≤ 1 :=
  ⟨cexEnv_mono,
    (claim_C2 cexEnv cexSc 20 (initSt [] 20) cexEnv_mono).2.2.2.2.2.2⟩

end

/-! ### Claim C3: live parameter mutation -/

/-- Test for a top-of-iteration parameter read event. -/
def isReadParamsEv : Ev → Bool
  | .readParams _ _ => true
  | _ => false

/-- Number of per-message loop iterations started (each iteration begins
with exactly one mutex-guarded read of `count_per_person`/`interval`). -/
def rpCount (tr : List Ev) : ℕ := tr.countP isReadParamsEv

theorem rpCount_append (a b : List Ev) :
    rpCount (a ++ b) = rpCount a + rpCount b :=
  List.countP_append _ _ _

theorem not_mem_of_rpCount_zero {tr : List Ev} (h : rpCount tr = 0)
    (a : ℕ) (b : ℚ) : Ev.readParams a b ∉ tr := by
  intro hmem
  have := List.countP_eq_zero.mp h _ hmem
  simp [isReadParamsEv] at this

theorem rpCount_cons (e : Ev) (t : List Ev) :
    rpCount (e :: t) = rpCount t + if isReadParamsEv e then 1 else 0 :=
  List.countP_cons _ _ _

theorem rpCount_micro (c d : Prop) [Decidable c] [Decidable d] (x y : ℚ) :
    rpCount (if c then (if d then [Ev.sleep x] else []) else [Ev.sleep y]) = 0 := by
  split
  · split <;> rfl
  · rfl

theorem rpCount_sleepWaitLoop (env : Env) (endT : ℚ) :
    ∀ (fuel : ℕ) (st : St), rpCount (sleepWaitLoop env endT fuel st).1 = 0 := by
  intro fuel
  induction fuel with
  | zero => intro st; rfl
  | succ n ih =>
    intro st
    rw [sleepWaitLoop]
    split
    · dsimp only
      split
      · rw [rpCount_cons, rpCount_append, rpCount_micro, ih]
        rfl
      · rfl
    · rfl

theorem rpCount_smart_sleep (env : Env) (human : Bool) (d : ℚ) (fuel : ℕ)
    (st : St) : rpCount (smart_sleep env human d fuel st).1 = 0 := by
  unfold smart_sleep
  dsimp only
  rw [rpCount_cons, rpCount_sleepWaitLoop]
  rfl

theorem rpCount_check_human_break (env : Env) (human : Bool) (fuel : ℕ)
    (st : St) : rpCount (check_human_break env human fuel st).1 = 0 := by
  unfold check_human_break
  split
  · dsimp only
    split
    · rw [rpCount_cons, rpCount_smart_sleep]
      rfl
    · rfl
  · rfl

theorem rpCount_send_paste_and_enter (human : Bool) (st : St) :
    rpCount (send_paste_and_enter human st).1 = 0 := by
  unfold send_paste_and_enter
  split <;> rfl

theorem rpCount_ite_sleep (env : Env) (human : Bool) (c : Prop) [Decidable c]
    (d : ℚ) (fuel : ℕ) (st : St) :
    rpCount (if c then smart_sleep env human d fuel st else ([], st)).1 = 0 := by
  split
  · exact rpCount_smart_sleep env human d fuel st
  · rfl

theorem rpCount_textBlock (env : Env) (human stealth : Bool) (am : PyStr)
    (af : List PyStr) (L sent fuel : ℕ) (st : St) :
    rpCount (textBlock env human stealth am af L sent fuel st).1 = 0 := by
  unfold textBlock
  dsimp only
  rw [rpCount_cons, rpCount_append, rpCount_append,
    rpCount_send_paste_and_enter, rpCount_check_human_break, rpCount_ite_sleep]
  rfl

theorem rpCount_filesBlock (env : Env) (human stealth : Bool)
    (af : List PyStr) (fuel : ℕ) (st : St) :
    rpCount (filesBlock env human stealth af fuel st).1 = 0 := by
  unfold filesBlock
  dsimp only
  rw [rpCount_cons, rpCount_cons, rpCount_cons, rpCount_append,
    rpCount_send_paste_and_enter, rpCount_check_human_break]
  rfl

theorem rpCount_sendContent (env : Env) (human stealth : Bool) (am : PyStr)
    (af : List PyStr) (L sent fuel : ℕ) (st : St) :
    rpCount (sendContent env human stealth am af L sent fuel st).1 = 0 := by
  unfold sendContent
  dsimp only
  rw [rpCount_append]
  have h1 : rpCount (if am ≠ [] then
      textBlock env human stealth am af L sent fuel st else ([], st)).1 = 0 := by
    split
    · exact rpCount_textBlock env human stealth am af L sent fuel st
    · rfl
  have h2 : ∀ stq : St, rpCount (if af ≠ [] then
      filesBlock env human stealth af fuel stq else ([], stq)).1 = 0 := by
    intro stq
    split
    · exact rpCount_filesBlock env human stealth af fuel stq
    · rfl
  rw [h1, h2]

theorem rpCount_progress (c : Prop) [Decidable c] (done total : ℕ) :
    rpCount (if c then [Ev.emitProgress done total] else []) = 0 := by
  split <;> rfl

theorem rpCount_break (x : ℕ) (y : ℚ) :
    rpCount [Ev.check true, Ev.readParams x y] = 1 := rfl

/-- Under a constant post-update config, every top-of-iteration parameter
read of the per-message loop yields the updated count and interval. -/
theorem msgLoop_readParams_vals (env : Env) (c : MCfg)
    (hconst : ∀ j, env.cfgAt j = c) (human stealth : Bool) (tt : ℕ)
    (ic : Bool) (cm : PyStr) (cf : List PyStr) :
    ∀ (fuel sent : ℕ) (st : St) (a : ℕ) (b : ℚ),
      Ev.readParams a b ∈
        (msgLoop env human stealth tt ic cm cf fuel sent st).1 →
      a = c.count_per_person ∧ b = c.interval := by
  intro fuel
  induction fuel with
  | zero => intro sent st a b hmem; simp [msgLoop] at hmem
  | succ n ih =>
    intro sent st a b hmem
    rw [msgLoop] at hmem
    split at hmem
    · dsimp only at hmem
      split at hmem
      · simp only [List.mem_cons, List.not_mem_nil, or_false] at hmem
        rcases hmem with h | h
        · exact absurd h (by simp)
        · rw [hconst] at h
          injection h with h1 h2
          exact ⟨h1, h2⟩
      · simp only [List.mem_cons, List.mem_append] at hmem
        rcases hmem with h | h | ((h | h) | h) | h
        · exact absurd h (by simp)
        · rw [hconst] at h
          injection h with h1 h2
          exact ⟨h1, h2⟩
        · exact absurd h (not_mem_of_rpCount_zero
            (rpCount_sendContent _ _ _ _ _ _ _ _ _) a b)
        · exact absurd h (not_mem_of_rpCount_zero
            (rpCount_progress _ _ _) a b)
        · exact absurd h (not_mem_of_rpCount_zero
            (rpCount_ite_sleep _ _ _ _ _ _) a b)
        · exact ih _ _ a b h
    · simp at hmem

/-- Under a constant post-update config with no stop, the per-message
loop performs exactly `count_per_person - sent` further full iterations
before its limit check fires: the updated count is the effective
per-person limit. -/
theorem rpCount_msgLoop (env : Env) (c : MCfg)
    (hconst : ∀ j, env.cfgAt j = c) (hrun : ∀ k, env.runningAt k = true)
    (human stealth : Bool) (tt : ℕ) (ic : Bool) (cm : PyStr)
    (cf : List PyStr) :
    ∀ (fuel sent : ℕ) (st : St), c.count_per_person - sent < fuel →
      rpCount (msgLoop env human stealth tt ic cm cf fuel sent st).1 =
        c.count_per_person - sent + 1 := by
  intro fuel
  induction fuel with
  | zero => intro sent st hfuel; exact absurd hfuel (Nat.not_lt_zero _)
  | succ n ih =>
    intro sent st hfuel
    rw [msgLoop, if_pos (hrun st.k)]
    dsimp only
    split
    · rename_i hlim
      rw [hconst] at hlim ⊢
      rw [rpCount_break]
      omega
    · rename_i hlim
      rw [hconst] at hlim
      have hlt : sent < c.count_per_person := by omega
      rw [rpCount_cons, rpCount_cons, rpCount_append, rpCount_append,
        rpCount_append, rpCount_sendContent, rpCount_progress,
        rpCount_ite_sleep, ih (sent + 1) _ (by omega)]
      simp only [isReadParamsEv, hconst, if_true, if_false, Nat.add_zero,
        Nat.zero_add]
      have hzero : (if false = true then (1 : ℕ) else 0) = 0 := rfl
      rw [hzero]
      omega

/-- Test for a `_smart_sleep` call event (carries the requested
duration). -/
def isSleepReqEv : Ev → Bool
  | .sleepReq _ => true
  | _ => false

/-- Number of `_smart_sleep` calls recorded in a trace. -/
def srCount (tr : List Ev) : ℕ := tr.countP isSleepReqEv

theorem not_mem_of_srCount_zero {tr : List Ev} (h : srCount tr = 0)
    (d : ℚ) : Ev.sleepReq d ∉ tr := by
  intro hmem
  have := List.countP_eq_zero.mp h _ hmem
  simp [isSleepReqEv] at this

theorem srCount_micro (c d : Prop) [Decidable c] [Decidable d] (x y : ℚ) :
    srCount (if c then (if d then [Ev.sleep x] else []) else [Ev.sleep y]) = 0 := by
  split
  · split <;> rfl
  · rfl

theorem srCount_cons (e : Ev) (t : List Ev) :
    srCount (e :: t) = srCount t + if isSleepReqEv e then 1 else 0 :=
  List.countP_cons _ _ _

theorem srCount_append (a b : List Ev) :
    srCount (a ++ b) = srCount a + srCount b :=
  List.countP_append _ _ _

theorem srCount_sleepWaitLoop (env : Env) (endT : ℚ) :
    ∀ (fuel : ℕ) (st : St), srCount (sleepWaitLoop env endT fuel st).1 = 0 := by
  intro fuel
  induction fuel with
  | zero => intro st; rfl
  | succ n ih =>
    intro st
    rw [sleepWaitLoop]
    split
    · dsimp only
      split
      · rw [srCount_cons, srCount_append, srCount_micro, ih]
        rfl
      · rfl
    · rfl

/-- A `sleepReq` event inside a `_smart_sleep` trace carries exactly the
requested duration of that call. -/
theorem smart_sleep_sleepReq (env : Env) (human : Bool) (dur : ℚ)
    (fuel : ℕ) (st : St) (d : ℚ)
    (hmem : Ev.sleepReq d ∈ (smart_sleep env human dur fuel st).1) :
    d = dur := by
  unfold smart_sleep at hmem
  dsimp only at hmem
  rcases List.mem_cons.mp hmem with h | h
  · injection h with h1
  · exact absurd h (not_mem_of_srCount_zero (srCount_sleepWaitLoop _ _ _ _) d)

/-- In non-human mode a message dispatch with no attachments is exactly
a copy followed by one paste-and-enter. -/
theorem sendContent_text_only (env : Env) (stl : Bool) (am : PyStr)
    (af : List PyStr) (L sent f : ℕ) (st : St) (haf : af = []) :
    (sendContent env false stl am af L sent f st).1 =
      if am ≠ [] then
        [Ev.copyText (humanize (env.semRand st.u) am (L : ℤ) sent stl),
          Ev.pasteEnter]
      else [] := by
  subst haf
  unfold sendContent textBlock check_human_break send_paste_and_enter
  simp only [ne_eq, not_true_eq_false, if_false, ite_not]
  split <;> rfl

theorem sleepReq_not_mem_progress (P : Prop) [Decidable P] (a b : ℕ)
    (d : ℚ) :
    Ev.sleepReq d ∉ (if P then [Ev.emitProgress a b] else []) := by
  split
  · intro h
    rcases List.mem_cons.mp h with h1 | h1
    · exact absurd h1 (by simp)
    · exact absurd h1 (List.not_mem_nil _)
  · exact List.not_mem_nil _

theorem sleepReq_not_mem_textPair (P : Prop) [Decidable P] (fm : PyStr)
    (d : ℚ) :
    Ev.sleepReq d ∉ (if P then [Ev.copyText fm, Ev.pasteEnter] else []) := by
  split
  · intro h
    rcases List.mem_cons.mp h with h1 | h1
    · exact absurd h1 (by simp)
    · rcases List.mem_cons.mp h1 with h2 | h2
      · exact absurd h2 (by simp)
      · exact absurd h2 (List.not_mem_nil _)
  · exact List.not_mem_nil _

/-- In non-human mode with attachment-free content (custom files empty
and live global files empty), every `_smart_sleep` request of the
per-message loop equals the just-read configured interval: the live
interval is the effective inter-message sleep duration. -/
theorem msgLoop_sleepReq_interval (env : Env) (c : MCfg)
    (hconst : ∀ j, env.cfgAt j = c) (stealth : Bool) (tt : ℕ) (ic : Bool)
    (cm : PyStr) (cf : List PyStr) (hcf : cf = [])
    (hgf : c.global_files = []) :
    ∀ (fuel sent : ℕ) (st : St) (d : ℚ),
      Ev.sleepReq d ∈ (msgLoop env false stealth tt ic cm cf fuel sent st).1 →
      d = c.interval := by
  intro fuel
  induction fuel with
  | zero => intro sent st d hmem; simp [msgLoop] at hmem
  | succ n ih =>
    intro sent st d hmem
    rw [msgLoop] at hmem
    split at hmem
    · dsimp only at hmem
      split at hmem
      · simp only [List.mem_cons, List.not_mem_nil, or_false] at hmem
        rcases hmem with h | h <;> exact absurd h (by simp)
      · simp only [List.mem_cons, List.mem_append] at hmem
        rcases hmem with h | h | ((h | h) | h) | h
        · exact absurd h (by simp)
        · exact absurd h (by simp)
        · rw [sendContent_text_only _ _ _ _ _ _ _ _ ?haf2] at h
          case haf2 =>
            rw [hconst]
            split
            · exact hcf
            · exact hgf
          exact absurd h (sleepReq_not_mem_textPair _ _ d)
        · exact absurd h (sleepReq_not_mem_progress _ _ _ d)
        · split at h
          · rw [hconst] at h
            exact smart_sleep_sleepReq env false c.interval n _ d h
          · exact absurd h (List.not_mem_nil _)
        · exact ih _ _ d h
    · simp at hmem

/-- Claim C3: `update_runtime_params` overwrites `count_per_person` and
`interval` (and nothing else) under the mutex; once the shared config
holds the new values, every subsequent iteration of the per-message loop
re-reads both under the mutex, compares the sent count against the new
count, performs exactly `new_count - sent` further full iterations when
never stopped, and passes the new interval to the inter-message
`_smart_sleep`. -/
theorem claim_C3 (env : Env) (c : MCfg) (human stealth : Bool) (tt : ℕ)
    (ic : Bool) (cm : PyStr) (cf : List PyStr)
    (hconst : ∀ j, env.cfgAt j = c) :
    (∀ (cfg : MCfg) (new_count : ℕ) (new_interval : ℚ),
      (update_runtime_params cfg new_count new_interval).count_per_person
        = new_count ∧
      (update_runtime_params cfg new_count new_interval).interval
        = new_interval ∧
      (update_runtime_params cfg new_count new_interval).global_msg
        = cfg.global_msg ∧
      (update_runtime_params cfg new_count new_interval).global_files
        = cfg.global_files) ∧
    (∀ (fuel sent : ℕ) (st : St) (a : ℕ) (b : ℚ),
      Ev.readParams a b ∈
        (msgLoop env human stealth tt ic cm cf fuel sent st).1 →
      a = c.count_per_person ∧ b = c.interval) ∧
    ((∀ k, env.runningAt k = true) → ∀ (fuel sent : ℕ) (st : St),
      c.count_per_person - sent < fuel →
      rpCount (msgLoop env human stealth tt ic cm cf fuel sent st).1 =
        c.count_per_person - sent + 1) ∧
    (cf = [] → c.global_files = [] →
      ∀ (fuel sent : ℕ) (st : St) (d : ℚ),
        Ev.sleepReq d ∈
          (msgLoop env false stealth tt ic cm cf fuel sent st).1 →
        d = c.interval) := by
  refine ⟨fun cfg n i => ⟨rfl, rfl, rfl, rfl⟩, ?_, ?_, ?_⟩
  · exact msgLoop_readParams_vals env c hconst human stealth tt ic cm cf
  · exact fun hrun => rpCount_msgLoop env c hconst hrun human stealth tt ic cm cf
  · exact fun hcf hgf =>
      msgLoop_sleepReq_interval env c hconst stealth tt ic cm cf hcf hgf

/-- Constant environment used by the claim C3 witness: the shared config
holds count 2 and interval 1/4 at every read. -/
def c3Env : Env :=
  { runningAt := fun _ => true
    timeAt := fun _ => 0
    perfAt := fun p => 1000 * p
    cfgAt := fun _ =>
      { count_per_person := 2, interval := 1/4, global_msg := ['g'],
        global_files := [] }
    randQ := fun _ => 1
    randN := fun _ => 20
    semRand := fun _ => ⟨['x'], ['x'], ['x']⟩
    procBatch := fun _ fs => fs
    clipReadOk := fun _ => true
    clipWriteOk := fun _ => true
    searchOk := fun _ => true
    connectOk := true }

section
attribute [local semireducible] Rat.add Rat.mul Rat.sub Rat.inv Rat.ofScientific

/-- Witness for claim C3 at the constant config: a three-fuel run from
`sent = 0` starts exactly `2 - 0 + 1` iterations. -/
theorem claim_C3_witness :
    (∀ j, c3Env.cfgAt j =
      { count_per_person := 2, interval := 1/4, global_msg := ['g'],
        global_files := [] }) ∧
    rpCount (msgLoop c3Env false false 1 true ['m'] [] 3 0 (initSt [] 20)).1
      = 2 - 0 + 1 :=
  ⟨fun _ => rfl,
    (claim_C3 c3Env
      { count_per_person := 2, interval := 1/4, global_msg := ['g'],
        global_files := [] } false false 1 true ['m'] [] (fun _ => rfl)).2.2.1
      (fun _ => rfl) 3 0 (initSt [] 20) (by norm_num)⟩

end

/-! ### Claim C6: countdown scheduling -/

/-- One full iteration of the countdown loop at time-reading index
`t0 + j`: a passing stop check, the truncated remaining seconds emitted
to the UI, and a 0.5 s sleep (0.1 s when under 2 s remain). -/
def cdBlock (env : Env) (ts : ℚ) (t0 j : ℕ) : List Ev :=
  [Ev.check true, Ev.emitCountdown (pyInt (ts - env.timeAt (t0 + j))),
    Ev.sleep (if ts - env.timeAt (t0 + j) < 2 then 1/10 else 1/2)]

theorem cdBlock_shift (env : Env) (ts : ℚ) (t0 : ℕ) :
    cdBlock env ts t0 ∘ Nat.succ = cdBlock env ts (t0 + 1) := by
  funext j
  have h : t0 + (j + 1) = t0 + 1 + j := by omega
  simp [cdBlock, Function.comp, h]

/-- Structure of the countdown loop: some number `n` of full iterations
(each a passing check with positive remaining time), then an exit that
is either the final `0` emission once the remaining time is `≤ 0`, or a
bare failed check when a stop was requested, or fuel exhaustion. -/
theorem countdownLoop_struct (env : Env) (ts : ℚ) :
    ∀ (fuel : ℕ) (st : St), ∃ (n : ℕ) (tail : List Ev),
      (countdownLoop env ts fuel st).1 =
        ((List.range n).map (cdBlock env ts st.t)).flatten ++ tail ∧
      (∀ j, j < n → env.runningAt (st.k + j) = true ∧
        0 < ts - env.timeAt (st.t + j)) ∧
      ((countdownLoop env ts fuel st).2.2 = CdExit.reached →
        tail = [Ev.check true, Ev.emitCountdown 0] ∧
        ts - env.timeAt (st.t + n) ≤ 0 ∧
        env.runningAt (st.k + n) = true) ∧
      ((countdownLoop env ts fuel st).2.2 = CdExit.stopped →
        tail = [Ev.check false] ∧ env.runningAt (st.k + n) = false) ∧
      ((countdownLoop env ts fuel st).2.2 = CdExit.fuelOut → tail = []) := by
  intro fuel
  induction fuel with
  | zero =>
    intro st
    refine ⟨0, [], rfl, fun j hj => absurd hj (Nat.not_lt_zero _),
      ?_, ?_, fun _ => rfl⟩
    · intro h
      simp [countdownLoop] at h
    · intro h
      simp [countdownLoop] at h
  | succ m ih =>
    intro st
    rw [countdownLoop]
    split
    · rename_i hr
      dsimp only
      split
      · rename_i hrem
        refine ⟨0, [Ev.check true, Ev.emitCountdown 0], by simp,
          fun j hj => absurd hj (Nat.not_lt_zero _), ?_, ?_, ?_⟩
        · intro _
          refine ⟨rfl, ?_, ?_⟩
          · simpa using hrem
          · simpa using hr
        · intro h
          simp at h
        · intro h
          simp at h
      · rename_i hrem
        obtain ⟨n, tail, htr, hblocks, hre, hstp, hfo⟩ :=
          ih { st with k := st.k + 1, t := st.t + 1 }
        refine ⟨n + 1, tail, ?_, ?_, ?_, ?_, ?_⟩
        · dsimp only
          rw [htr, List.range_succ_eq_map, List.map_cons, List.flatten_cons,
            List.map_map, cdBlock_shift]
          have h0 : st.t + 0 = st.t := rfl
          simp [cdBlock, h0]
        · intro j hj
          cases j with
          | zero =>
            refine ⟨by simpa using hr, ?_⟩
            have : ¬ts - env.timeAt st.t ≤ 0 := hrem
            simp only [Nat.add_zero]
            linarith [not_le.mp this]
          | succ i =>
            have hi : i < n := by omega
            obtain ⟨h1, h2⟩ := hblocks i hi
            constructor
            · have he : st.k + 1 + i = st.k + (i + 1) := by omega
              rw [he] at h1
              exact h1
            · have he : st.t + 1 + i = st.t + (i + 1) := by omega
              rw [he] at h2
              exact h2
        · intro h
          obtain ⟨h1, h2, h3⟩ := hre h
          refine ⟨h1, ?_, ?_⟩
          · have he : st.t + 1 + n = st.t + (n + 1) := by omega
            rw [he] at h2
            exact h2
          · have he : st.k + 1 + n = st.k + (n + 1) := by omega
            rw [he] at h3
            exact h3
        · intro h
          obtain ⟨h1, h2⟩ := hstp h
          refine ⟨h1, ?_⟩
          have he : st.k + 1 + n = st.k + (n + 1) := by omega
          rw [he] at h2
          exact h2
        · exact hfo
    · rename_i hr
      have hr' : env.runningAt st.k = false := by
        revert hr; cases h : env.runningAt st.k <;> simp
      refine ⟨0, [Ev.check false], rfl,
        fun j hj => absurd hj (Nat.not_lt_zero _), ?_, ?_, ?_⟩
      · intro h
        simp at h
      · intro _
        exact ⟨rfl, by simpa using hr'⟩
      · intro h
        simp at h

theorem connectTry_not_mem_countdown (env : Env) (ts : ℚ) :
    ∀ (fuel : ℕ) (st : St),
      Ev.connectTry ∉ (countdownLoop env ts fuel st).1 := by
  intro fuel
  induction fuel with
  | zero => intro st; exact List.not_mem_nil _
  | succ m ih =>
    intro st
    rw [countdownLoop]
    split
    · dsimp only
      split
      · intro h
        rcases List.mem_cons.mp h with h1 | h1
        · exact absurd h1 (by simp)
        · rcases List.mem_cons.mp h1 with h2 | h2
          · exact absurd h2 (by simp)
          · exact absurd h2 (List.not_mem_nil _)
      · intro h
        rcases List.mem_cons.mp h with h1 | h1
        · exact absurd h1 (by simp)
        · rcases List.mem_cons.mp h1 with h2 | h2
          · exact absurd h2 (by simp)
          · rcases List.mem_cons.mp h2 with h3 | h3
            · exact absurd h3 (by simp)
            · exact absurd h3 (ih _)
    · intro h
      rcases List.mem_cons.mp h with h1 | h1
      · exact absurd h1 (by simp)
      · exact absurd h1 (List.not_mem_nil _)

/-- Environment for the claim C6 counterexample: the stop flag is
already down when the countdown starts. -/
def cdCexEnv : Env :=
  { runningAt := fun _ => false
    timeAt := fun _ => 0
    perfAt := fun p => 1000 * p
    cfgAt := fun _ =>
      { count_per_person := 1, interval := 1/2, global_msg := [],
        global_files := [] }
    randQ := fun _ => 1
    randN := fun _ => 20
    semRand := fun _ => ⟨['x'], ['x'], ['x']⟩
    procBatch := fun _ fs => fs
    clipReadOk := fun _ => true
    clipWriteOk := fun _ => true
    searchOk := fun _ => true
    connectOk := true }

/-- Claim C6 counterexample: when a stop lands during the countdown the
loop exits without emitting the final `0`, so the claim that every exit
emits a final `0` is false. -/
theorem claim_C6_cex :
    (countdownLoop cdCexEnv 5 3 (initSt [] 20)).2.2 = CdExit.stopped ∧
    Ev.emitCountdown 0 ∉ (countdownLoop cdCexEnv 5 3 (initSt [] 20)).1 := by
  decide

/-- Claim C6 (amended): scheduling is a sleep-in-a-loop countdown.
Every full iteration of `countdownLoop` is a `cdBlock` — a passing stop
check, the truncated remaining seconds emitted, and a 0.5 s sleep (0.1 s
when fewer than 2 s remain) — taken only while the remaining time is
positive; the loop exits once the remaining time is `≤ 0`, emitting a
final `0`, or once a stop has been requested, in which case it returns
without the final emission; and when `target_timestamp > 0`, a
chat-window connection attempt in the `run` trace implies the clock had
reached `target_timestamp`. -/
theorem claim_C6 (env : Env) (sc : SCfg) (fuel : ℕ) (st : St) :
    (∀ (f : ℕ) (s : St), ∃ (n : ℕ) (tail : List Ev),
      (countdownLoop env sc.target_timestamp f s).1 =
        ((List.range n).map (cdBlock env sc.target_timestamp s.t)).flatten
          ++ tail ∧
      (∀ j, j < n → env.runningAt (s.k + j) = true ∧
        0 < sc.target_timestamp - env.timeAt (s.t + j)) ∧
      ((countdownLoop env sc.target_timestamp f s).2.2 = CdExit.reached →
        tail = [Ev.check true, Ev.emitCountdown 0] ∧
        sc.target_timestamp - env.timeAt (s.t + n) ≤ 0) ∧
      ((countdownLoop env sc.target_timestamp f s).2.2 = CdExit.stopped →
        tail = [Ev.check false] ∧ env.runningAt (s.k + n) = false)) ∧
    (0 < sc.target_timestamp →
      Ev.connectTry ∈ (run env sc fuel st).1 →
      ∃ j, sc.target_timestamp ≤ env.timeAt j) := by
  constructor
  · intro f s
    obtain ⟨n, tail, h1, h2, h3, h4, _⟩ :=
      countdownLoop_struct env sc.target_timestamp f s
    exact ⟨n, tail, h1, h2, fun h => ⟨(h3 h).1, (h3 h).2.1⟩, h4⟩
  · intro hts hmem
    rw [run] at hmem
    rw [if_pos hts] at hmem
    dsimp only at hmem
    split at hmem
    · rename_i heq
      simp only [List.mem_cons, List.mem_append, List.mem_singleton] at hmem
      rcases hmem with h | h | h | h
      · exact absurd h (by simp)
      · exact absurd h (by simp)
      · exact absurd h (connectTry_not_mem_countdown env _ fuel st)
      · exact absurd h (by simp)
    · rename_i heq
      simp only [List.mem_cons] at hmem
      rcases hmem with h | h | h
      · exact absurd h (by simp)
      · exact absurd h (by simp)
      · exact absurd h (connectTry_not_mem_countdown env _ fuel st)
    · rename_i heq
      obtain ⟨n, tail, _, _, h3, _, _⟩ :=
        countdownLoop_struct env sc.target_timestamp fuel st
      obtain ⟨_, hle, _⟩ := h3 heq
      exact ⟨st.t + n, by linarith⟩

/-- Environment for the claim C6 witness: the flag stays up and the
clock advances one second per reading. -/
def c6Env : Env :=
  { runningAt := fun _ => true
    timeAt := fun t => (t : ℚ)
    perfAt := fun p => 1000 * p
    cfgAt := fun _ =>
      { count_per_person := 1, interval := 1/2, global_msg := [],
        global_files := [] }
    randQ := fun _ => 1
    randN := fun _ => 20
    semRand := fun _ => ⟨['x'], ['x'], ['x']⟩
    procBatch := fun _ fs => fs
    clipReadOk := fun _ => true
    clipWriteOk := fun _ => true
    searchOk := fun _ => true
    connectOk := true }

/-- Concrete task for the claim C6 witness: no targets, a one-second
target timestamp. -/
def c6Sc : SCfg :=
  { target_list := []
    target_timestamp := 1
    enable_stealth_mode := false
    enable_human_simulation := false
    auto_minimize_done := false }

section
attribute [local semireducible] Rat.add Rat.mul Rat.sub Rat.inv Rat.ofScientific

/-- Witness for claim C6: in a concrete run whose trace does attempt the
connection, the clock had reached the target timestamp. -/
theorem claim_C6_witness :
    ∃ j, c6Sc.target_timestamp ≤ c6Env.timeAt j :=
  (claim_C6 c6Env c6Sc 6 (initSt [] 20)).2 (by norm_num [c6Sc]) (by decide)

end

/-! ### Claim C7: fixed phase order per target -/

/-- Claim C7: each target is processed in the fixed phase order
searching, focusing, pasting, waiting. A successful `search_contact` is
exactly the `searchEvs` keystroke sequence (activate, Ctrl+F, paste the
name, Enter) and reports success, a driver failure reports failure; when
the search is required and fails, the target is skipped entirely (no
focus, no paste); when it is required and succeeds, the target trace is
the search phase, then a paste-free wait, then the focus, then the
per-message loop, then the scope exit and a paste-free trailing wait, in
that order; and under a constant global config with no global files each
`_smart_sleep` between messages is requested with the configured
interval. -/
theorem claim_C7 (env : Env) (sc : SCfg) (tt : ℕ) (tgt : Target)
    (fuel : ℕ) (st : St) :
    (∀ (name : PyStr) (s : St),
      (env.searchOk name = true →
        search_contact env name s =
          (searchEvs name, { s with clip := name }, true)) ∧
      (env.searchOk name = false →
        (search_contact env name s).2.2 = false)) ∧
    (¬(tt = 1 ∧ (tgt.name = [] ∨ tgt.name = curWindowName)) →
      env.searchOk tgt.name = false →
      Ev.focusInput ∉ (runTarget env sc tt tgt fuel st).1 ∧
      pasteCount (runTarget env sc tt tgt fuel st).1 = 0) ∧
    (¬(tt = 1 ∧ (tgt.name = [] ∨ tgt.name = curWindowName)) →
      env.searchOk tgt.name = true →
      (tgt.msg ≠ [] ∨ tgt.files ≠ [] ∨
        (env.cfgAt st.r).global_msg ≠ [] ∨
        (env.cfgAt st.r).global_files ≠ []) →
      ∃ (trW trM trG : List Ev) (sW sM : St),
        (runTarget env sc tt tgt fuel st).1 =
          Ev.scopeEnter :: Ev.log ::
            (searchEvs tgt.name ++ trW ++ [Ev.focusInput] ++ trM ++
              [Ev.scopeExit] ++ trG) ∧
        trW = (smart_sleep env sc.enable_human_simulation (1/2) fuel sW).1 ∧
        trM = (msgLoop env sc.enable_human_simulation sc.enable_stealth_mode
          tt (tgt.msg ≠ [] ∨ tgt.files ≠ []) tgt.msg tgt.files fuel 0 sM).1 ∧
        pasteCount trW = 0 ∧ pasteCount trG = 0) ∧
    (∀ (c : MCfg), (∀ j, env.cfgAt j = c) → c.global_files = [] →
      ∀ (f sent : ℕ) (s : St) (d : ℚ),
        Ev.sleepReq d ∈
          (msgLoop env false sc.enable_stealth_mode tt false [] [] f sent s).1 →
        d = c.interval) := by
  refine ⟨?_, ?_, ?_, ?_⟩
  · intro name s
    constructor
    · intro h
      simp [search_contact, h]
    · intro h
      simp [search_contact, h]
  · intro hns hfail
    have hsc : ∀ s : St, search_contact env tgt.name s =
        ([Ev.activate, Ev.sleep (1/10)], s, false) := fun s => by
      simp [search_contact, hfail]
    unfold runTarget
    dsimp only
    split
    · exact ⟨by simp, rfl⟩
    · constructor
      · simp [hsc, hns]
      · simp [hsc, hns, pasteCount, isPasteEv]
  · intro hns hok hc
    have hse : ∀ s : St, search_contact env tgt.name s =
        (searchEvs tgt.name, { s with clip := tgt.name }, true) := fun s => by
      simp [search_contact, hok]
    have hskip : ¬(¬(tgt.msg ≠ [] ∨ tgt.files ≠ []) ∧
        (env.cfgAt st.r).global_msg = [] ∧
        (env.cfgAt st.r).global_files = []) := by
      intro h
      obtain ⟨h1, h2, h3⟩ := h
      rcases hc with hc | hc | hc | hc
      · exact absurd (Or.inl hc) h1
      · exact absurd (Or.inr hc) h1
      · exact absurd h2 hc
      · exact absurd h3 hc
    unfold runTarget
    dsimp only
    rw [if_neg hskip, if_pos hns]
    simp only [hse]
    refine ⟨_, _, _, _, _, rfl, rfl, rfl, ?_, ?_⟩
    · exact (smart_sleep_spec env sc.enable_human_simulation (1/2) fuel _).2
    · exact (smart_sleep_spec env sc.enable_human_simulation (1/2) fuel _).2
  · intro c hconst hgf f sent s d hmem
    exact msgLoop_sleepReq_interval env c hconst sc.enable_stealth_mode tt
      false [] [] rfl hgf f sent s d hmem

/-- Environment for the claim C7 witness: the contact search always
fails. -/
def c7Env : Env :=
  { c6Env with searchOk := fun _ => false }

/-- Witness for claim C7: a concrete target whose search fails is
skipped entirely. -/
theorem claim_C7_witness :
    Ev.focusInput ∉
      (runTarget c7Env c6Sc 2 ⟨['a'], ['m'], []⟩ 5 (initSt [] 20)).1 ∧
    pasteCount
      (runTarget c7Env c6Sc 2 ⟨['a'], ['m'], []⟩ 5 (initSt [] 20)).1 = 0 :=
  (claim_C7 c7Env c6Sc 2 ⟨['a'], ['m'], []⟩ 5 (initSt [] 20)).2.1
    (by decide) rfl

/-! ### Claim C1: clipboard hand-off synchronization -/

/-- Events of the UI thread's `set_clipboard_files` slot. -/
inductive UiEv where
  | setMime
  | logErr
  | signalDone
  deriving Repr, DecidableEq

/-- Model of `WeChatProUI.set_clipboard_files(file_paths)`: the `try`
body builds the mime data and sets the clipboard (`setOk = false` models
`clipboard.setMimeData` raising, which the `except` arm logs), and the
`finally` arm calls `worker.on_clipboard_set_done()` whenever
`self.worker` is set.  The returned Bool records whether the completion
signal was issued. -/
def set_clipboard_files (workerPresent setOk : Bool) : List UiEv × Bool :=
  ((if setOk then [UiEv.setMime] else [UiEv.logErr]) ++
    (if workerPresent then [UiEv.signalDone] else []),
    workerPresent)

theorem filesBlock_hand_off (env : Env) (human stealth : Bool)
    (af : List PyStr) (fuel : ℕ) (s : St) :
    ∃ tr, (filesBlock env human stealth af fuel s).1 =
      Ev.clearEvent :: Ev.emitFiles
        (if stealth then env.procBatch s.b af else af) ::
        Ev.waitEvent 5 :: Ev.pasteEnter :: tr := by
  have hspe : ∀ (h : Bool) (x : St),
      (send_paste_and_enter h x).1 = [Ev.pasteEnter] := by
    intro h x
    unfold send_paste_and_enter
    split <;> rfl
  unfold filesBlock
  dsimp only
  rw [hspe]
  exact ⟨_, rfl⟩

/-- Claim C1: clipboard hand-off synchronization.  On the UI side,
`set_clipboard_files` calls `on_clipboard_set_done` exactly when the
worker is present, on every path — whether setting the clipboard
succeeded or raised.  On the worker side, the attachment block first
clears the clipboard event, then emits the (stealth-processed when
enabled) file list to the UI thread, then waits up to 5 seconds for the
completion signal, and only then issues the paste-and-enter; inside one
message dispatch this block appears whenever the active attachment list
is non-empty. -/
theorem claim_C1 (env : Env) (human stealth : Bool) (am : PyStr)
    (af : List PyStr) (lim sent fuel : ℕ) (st : St) :
    (∀ (wp setOk : Bool),
      (set_clipboard_files wp setOk).2 = wp ∧
      (UiEv.signalDone ∈ (set_clipboard_files wp setOk).1 ↔ wp = true)) ∧
    (∀ s : St, ∃ tr, (filesBlock env human stealth af fuel s).1 =
      Ev.clearEvent :: Ev.emitFiles
        (if stealth then env.procBatch s.b af else af) ::
        Ev.waitEvent 5 :: Ev.pasteEnter :: tr) ∧
    (af ≠ [] →
      ∃ (pre tr : List Ev) (fin : List PyStr),
        (sendContent env human stealth am af lim sent fuel st).1 =
          pre ++ (Ev.clearEvent :: Ev.emitFiles fin ::
            Ev.waitEvent 5 :: Ev.pasteEnter :: tr)) := by
  refine ⟨?_, ?_, ?_⟩
  · intro wp setOk
    constructor
    · rfl
    · cases wp <;> cases setOk <;> simp [set_clipboard_files]
  · intro s
    exact filesBlock_hand_off env human stealth af fuel s
  · intro haf
    unfold sendContent
    dsimp only
    rw [if_pos haf]
    obtain ⟨tr, htr⟩ := filesBlock_hand_off env human stealth af fuel
      (if am ≠ [] then
        textBlock env human stealth am af lim sent fuel st else ([], st)).2
    exact ⟨_, tr, _, by rw [htr]⟩

/-- Witness for claim C1: one concrete dispatch with a text message and
one attachment contains the clear, emit, wait, paste sequence. -/
theorem claim_C1_witness :
    ∃ (pre tr : List Ev) (fin : List PyStr),
      (sendContent c6Env false false ['m'] [['f']] 1 0 3 (initSt [] 20)).1 =
        pre ++ (Ev.clearEvent :: Ev.emitFiles fin ::
          Ev.waitEvent 5 :: Ev.pasteEnter :: tr) :=
  (claim_C1 c6Env false false ['m'] [['f']] 1 0 3 (initSt [] 20)).2.2
    (by decide)

/-! ### Claim C9: clipboard restoration -/

theorem sleepWaitLoop_clip (env : Env) (e : ℚ) :
    ∀ (fuel : ℕ) (s : St), (sleepWaitLoop env e fuel s).2.clip = s.clip := by
  intro fuel
  induction fuel with
  | zero => intro s; rfl
  | succ n ih =>
    intro s
    rw [sleepWaitLoop]
    split
    · dsimp only
      split
      · exact ih _
      · rfl
    · rfl

theorem smart_sleep_clip (env : Env) (h : Bool) (d : ℚ) (fuel : ℕ)
    (s : St) : (smart_sleep env h d fuel s).2.clip = s.clip := by
  unfold smart_sleep
  dsimp only
  exact sleepWaitLoop_clip env _ fuel _

/-- Environment for the claim C9 counterexample: every clipboard-scope
entry read succeeds, but the except-pass-guarded exit restore write
always raises. -/
def c9CexEnv : Env :=
  { c6Env with clipWriteOk := fun _ => false }

/-- Claim C9 (amended): clipboard restoration up to a raising restore
write.  `ClipboardScope` yields on exit the content saved on entry (the
empty string when the entry read raised) whenever the exit restore write
succeeds, whether the body completed normally or raised — the raise
status merely passes through; when the restore write itself raises, the
except-pass guard swallows the exception and the clipboard keeps
whatever the body last set.  A target whose entry clipboard read
succeeds leaves the worker's clipboard exactly as `runTarget` found it,
provided the scope-exit restore writes succeed. -/
theorem claim_C9 (env : Env) (sc : SCfg) (tt : ℕ) (tgt : Target)
    (fuel : ℕ) (st : St) :
    (∀ (readOk writeOk : Bool) (body : PyStr → PyStr × Bool) (clip : PyStr),
      (withClipboardScope readOk writeOk body clip).1 =
        (if writeOk then (if readOk then clip else []) else (body clip).1) ∧
      (withClipboardScope readOk writeOk body clip).2 = (body clip).2) ∧
    (env.clipReadOk st.c = true →
      (∀ j, env.clipWriteOk j = true) →
      (runTarget env sc tt tgt fuel st).2.clip = st.clip) := by
  constructor
  · intro readOk writeOk body clip
    exact ⟨rfl, rfl⟩
  · intro hro hwo
    unfold runTarget
    dsimp only
    by_cases hskip : ¬(tgt.msg ≠ [] ∨ tgt.files ≠ []) ∧
        (env.cfgAt st.r).global_msg = [] ∧
        (env.cfgAt st.r).global_files = []
    · rw [if_pos hskip]
    · rw [if_neg hskip]
      by_cases hn : ¬(tt = 1 ∧ (tgt.name = [] ∨ tgt.name = curWindowName))
      · rw [if_pos hn]
        by_cases hs : (search_contact env tgt.name
            { st with r := st.r + 1, c := st.c + 1 }).2.2 = true
        · rw [if_pos hs]
          simp [smart_sleep_clip, hro, hwo]
        · rw [if_neg hs]
          simp [hro, hwo]
      · rw [if_neg hn]
        simp [smart_sleep_clip, hro, hwo]

/-- Witness for claim C9 at a concrete target with every clipboard
operation succeeding: the content `"z"` found on entry is restored. -/
theorem claim_C9_witness :
    (runTarget c6Env c6Sc 2 ⟨['a'], ['m'], []⟩ 3 (initSt ['z'] 20)).2.clip
      = ['z'] :=
  (claim_C9 c6Env c6Sc 2 ⟨['a'], ['m'], []⟩ 3 (initSt ['z'] 20)).2 rfl
    (fun _ => rfl)

section
attribute [local semireducible] Rat.add Rat.mul Rat.sub Rat.inv Rat.ofScientific

/-- Claim C9 counterexample: in a run whose entry clipboard read
succeeds but whose scope-exit restore write raises (and is swallowed),
the target leaves the clipboard holding the last pasted message instead
of the content it found, so the claim that every target leaves the text
clipboard as it found it is false. -/
theorem claim_C9_cex :
    c9CexEnv.clipReadOk (initSt ['z'] 20).c = true ∧
    (runTarget c9CexEnv c6Sc 2 ⟨['a'], ['m'], []⟩ 3
      (initSt ['z'] 20)).2.clip ≠ ['z'] := by
  decide

end

end WeChatPro
